import Mathlib

/-!
Verification of the ai-marketing repository's specification claims.

The embedding works over `Str := List Char` (Python `str` values are modelled as
their character lists).  Python string operations used by the sources
(`strip`, `startswith`, `endswith`, slicing, `lower`, `split`, `in`) are given
executable models below.  Whitespace is modelled as the four JSON whitespace
characters (space, tab, newline, carriage return); the repository only ever
strips whitespace around JSON payloads, where exactly these four occur.
-/

/-- Python strings, modelled as character lists. -/

abbrev Str := List Char

/-- The four whitespace characters of the JSON grammar (also stripped by
`str.strip` on the payloads this repository handles). -/
def pyWs (c : Char) : Bool :=
  c = ' ' || c = '\t' || c = '\n' || c = '\r'

/-- Drop leading whitespace. -/
def skipWs : Str → Str
  | [] => []
  | c :: r => if pyWs c then skipWs r else c :: r

/-- `str.strip()`: drop whitespace from both ends. -/
def pyStrip (cs : Str) : Str :=
  (skipWs ((skipWs cs).reverse)).reverse

/-- `str.lower()` (ASCII model of Python's lowercasing). -/
def pyLower (s : Str) : Str := s.map Char.toLower

/-- `needle in hay` on Python strings: substring containment. -/
def pyIn : Str → Str → Bool
  | needle, [] => needle.isEmpty
  | needle, h :: t => needle.isPrefixOf (h :: t) || pyIn needle t

/-- `a or b` for an optional string `a`: Python treats `None` and `""` as falsy. -/
def pyOrStr (a : Option Str) (b : Str) : Str :=
  match a with
  | some s => if s.isEmpty then b else s
  | none => b

/-- `a or b` where both sides are optional strings. -/
def pyOrOpt (a b : Option Str) : Option Str :=
  match a with
  | some s => if s.isEmpty then b else some s
  | none => b

/-- Truthiness of an optional string (`None` and `""` are falsy). -/
def optTruthy (a : Option Str) : Bool :=
  match a with
  | some s => !s.isEmpty
  | none => false

/-- `str(n)` for a natural number. -/
def natStr (n : Nat) : Str := (Nat.repr n).data

/-- `str.split()`: split on whitespace runs, discarding empty pieces
(fuelled by the input length; each step consumes at least one character). -/
def pySplitGo : Nat → Str → List Str
  | 0, _ => []
  | _ + 1, [] => []
  | fuel + 1, c :: r =>
    if pyWs c then pySplitGo fuel r
    else (c :: r.takeWhile (fun x => !pyWs x)) :: pySplitGo fuel (r.dropWhile (fun x => !pyWs x))

def pySplit (s : Str) : List Str := pySplitGo s.length s

/-! ## A model of `json.loads`

`ai_generator.generate_json` parses backend text with Python's `json.loads`.
The model below is an executable recursive-descent parser over `Str` covering
the grammar `json.loads` accepts by default: `null`, booleans, numbers
(kept as their source lexeme, so no floating-point semantics are needed),
strings with escapes, arrays, objects, and the Python extensions
`NaN` / `Infinity` / `-Infinity`.  Numbers follow Python's
`-?(0|[1-9]\d*)(\.\d+)?([eE][+-]?\d+)?` shape; unescaped control characters
inside strings are rejected, as in strict-mode `json.loads`. -/
inductive JVal where
  | jnull
  | jbool (b : Bool)
  | jnum (lexeme : Str)
  | jstr (s : Str)
  | jarr (elems : List JVal)
  | jobj (members : List (Str × JVal))
  | jnan
  | jinf (neg : Bool)

/-- Hexadecimal digit value, for `\uXXXX` escapes. -/
def hexVal (c : Char) : Option Nat :=
  if '0' ≤ c ∧ c ≤ '9' then some (c.toNat - '0'.toNat)
  else if 'a' ≤ c ∧ c ≤ 'f' then some (c.toNat - 'a'.toNat + 10)
  else if 'A' ≤ c ∧ c ≤ 'F' then some (c.toNat - 'A'.toNat + 10)
  else none

/-- Two-character escape decodings accepted by JSON. -/
def escChar : Char → Option Char
  | '"' => some '"'
  | '\\' => some '\\'
  | '/' => some '/'
  | 'b' => some (Char.ofNat 8)
  | 'f' => some (Char.ofNat 12)
  | 'n' => some '\n'
  | 'r' => some '\r'
  | 't' => some '\t'
  | _ => none

/-- Parse a JSON string body after the opening quote; returns the decoded
content and the remainder after the closing quote. -/
def jstrAux : Str → Option (Str × Str)
  | '"' :: r => some ([], r)
  | '\\' :: 'u' :: a :: b :: c :: d :: r =>
    (match hexVal a, hexVal b, hexVal c, hexVal d with
     | some va, some vb, some vc, some vd =>
       (jstrAux r).map (fun p => (Char.ofNat (((va * 16 + vb) * 16 + vc) * 16 + vd) :: p.1, p.2))
     | _, _, _, _ => none)
  | '\\' :: e :: r =>
    (match escChar e with
     | some ch => (jstrAux r).map (fun p => (ch :: p.1, p.2))
     | none => none)
  | c :: r => if c.toNat < 32 then none else (jstrAux r).map (fun p => (c :: p.1, p.2))
  | [] => none

/-- Decimal digit test. -/
def isDig (c : Char) : Bool := '0' ≤ c && c ≤ '9'

/-- Span of decimal digits. -/
def digitSpan : Str → Str × Str
  | [] => ([], [])
  | c :: r =>
    if isDig c then
      let p := digitSpan r
      (c :: p.1, p.2)
    else ([], c :: r)

/-- Optional `+`/`-` sign in front of an exponent. -/
def signSplit (r : Str) : Str × Str :=
  match r with
  | '+' :: r2 => (['+'], r2)
  | '-' :: r2 => (['-'], r2)
  | _ => ([], r)

/-- Optional leading `-` of a number. -/
def negSplit (cs : Str) : Str × Str :=
  match cs with
  | '-' :: r => (['-'], r)
  | _ => ([], cs)

/-- Optional exponent part of a JSON number (requires at least one digit when
an `e`/`E` marker is present). -/
def jnumExp : Str → Option (Str × Str)
  | [] => some ([], [])
  | e :: r =>
    if e = 'e' ∨ e = 'E' then
      let sp := signSplit r
      let dp := digitSpan sp.2
      if dp.1.isEmpty then none
      else some (e :: (sp.1 ++ dp.1), dp.2)
    else some ([], e :: r)

/-- Optional fraction then optional exponent of a JSON number. -/
def jnumTail (cs : Str) : Option (Str × Str) :=
  match cs with
  | '.' :: r =>
    let dp := digitSpan r
    if dp.1.isEmpty then none
    else (jnumExp dp.2).map (fun p => ('.' :: (dp.1 ++ p.1), p.2))
  | _ => jnumExp cs

/-- Parse a JSON number; returns its lexeme and the remainder. -/
def jnumParse (cs : Str) : Option (Str × Str) :=
  let sp := negSplit cs
  match sp.2 with
  | '0' :: r1 => (jnumTail r1).map (fun p => (sp.1 ++ '0' :: p.1, p.2))
  | c :: r1 =>
    if '1' ≤ c ∧ c ≤ '9' then
      let dp := digitSpan r1
      (jnumTail dp.2).map (fun p => (sp.1 ++ c :: (dp.1 ++ p.1), p.2))
    else none
  | [] => none

/-- Expect a literal character sequence; return the remainder past it. -/
def stripLit : Str → Str → Option Str
  | [], s => some s
  | _ :: _, [] => none
  | c :: p, x :: s => if x = c then stripLit p s else none

mutual

def jsonValue : Nat → Str → Option (JVal × Str)
  | 0, _ => none
  | fuel + 1, cs =>
    match skipWs cs with
    | [] => none
    | c :: r =>
      if c = 'n' then (stripLit ("ull".data) r).map (fun r2 => (JVal.jnull, r2))
      else if c = 't' then (stripLit ("rue".data) r).map (fun r2 => (JVal.jbool true, r2))
      else if c = 'f' then (stripLit ("alse".data) r).map (fun r2 => (JVal.jbool false, r2))
      else if c = 'N' then (stripLit ("aN".data) r).map (fun r2 => (JVal.jnan, r2))
      else if c = 'I' then (stripLit ("nfinity".data) r).map (fun r2 => (JVal.jinf false, r2))
      else if c = '"' then (jstrAux r).map (fun p => (JVal.jstr p.1, p.2))
      else if c = '[' then
        match skipWs r with
        | ']' :: r2 => some (JVal.jarr [], r2)
        | r2 => (jsonArrayTail fuel r2).map (fun p => (JVal.jarr p.1, p.2))
      else if c = '\x7b' then
        match skipWs r with
        | '\x7d' :: r2 => some (JVal.jobj [], r2)
        | r2 => (jsonObjectTail fuel r2).map (fun p => (JVal.jobj p.1, p.2))
      else if c = '-' then
        match stripLit ("Infinity".data) r with
        | some r2 => some (JVal.jinf true, r2)
        | none => (jnumParse (c :: r)).map (fun p => (JVal.jnum p.1, p.2))
      else if isDig c then (jnumParse (c :: r)).map (fun p => (JVal.jnum p.1, p.2))
      else none

def jsonArrayTail : Nat → Str → Option (List JVal × Str)
  | 0, _ => none
  | fuel + 1, cs =>
    match jsonValue fuel cs with
    | none => none
    | some (v, r) =>
      match skipWs r with
      | ']' :: r2 => some ([v], r2)
      | ',' :: r2 => (jsonArrayTail fuel r2).map (fun p => (v :: p.1, p.2))
      | _ => none

def jsonObjectTail : Nat → Str → Option (List (Str × JVal) × Str)
  | 0, _ => none
  | fuel + 1, cs =>
    match skipWs cs with
    | '"' :: r =>
      (match jstrAux r with
       | none => none
       | some (k, r1) =>
         match skipWs r1 with
         | ':' :: r2 =>
           (match jsonValue fuel r2 with
            | none => none
            | some (v, r3) =>
              match skipWs r3 with
              | '\x7d' :: r4 => some ([(k, v)], r4)
              | ',' :: r4 => (jsonObjectTail fuel r4).map (fun p => ((k, v) :: p.1, p.2))
              | _ => none)
         | _ => none)
    | _ => none

end

/-- `json.loads`: parse one complete JSON document.  `json.loads` ignores
whitespace around the document, modelled by stripping both ends up front and
requiring the remainder after the value to be whitespace-only.  The fuel
`2 * length + 2` dominates the recursion depth (each nested call consumes at
least one character per two fuel units). -/
def json_loads (cs : Str) : Option JVal :=
  let t := pyStrip cs
  match jsonValue (2 * t.length + 2) t with
  | some (v, r) => if (skipWs r).isEmpty then some v else none
  | none => none

/-! ## `generate_json`'s extraction step (`ai/ai_generator.py`, lines 255-278)

The code strips the response, peels a leading ` ```json ` or ` ``` ` fence and a
trailing ` ``` ` fence, and calls `json.loads` on the stripped remainder; on a
parse failure it applies `re.search(r'\x7b.*\x7d', response, re.DOTALL)` — which,
being greedy, matches from the first left brace to the last right brace — to the
(already fence-stripped) `response` variable and parses that span; if both fail
it raises `ValueError` carrying the first 200 characters of the fence-stripped
`response`.  The code's trailing `response.strip()` before `json.loads` is
absorbed by `json_loads`'s own surrounding-whitespace handling. -/
/-- The ` ``` ` fence marker. -/
def fence3 : Str := ('`' :: '`' :: '`' :: [])

/-- The ` ```json ` fence marker. -/
def fence7 : Str := fence3 ++ ('j' :: 's' :: 'o' :: 'n' :: [])

/-- The fence-peeling prefix of `generate_json`'s parsing block:
`response.strip()`, then drop a leading ` ```json `, then a leading ` ``` `,
then a trailing ` ``` `. -/
def stripFences (response : Str) : Str :=
  let r0 := pyStrip response
  let r1 := if fence7.isPrefixOf r0 then r0.drop 7 else r0
  let r2 := if fence3.isPrefixOf r1 then r1.drop 3 else r1
  if fence3.isSuffixOf r2 then r2.take (r2.length - 3) else r2

/-- `re.search(r'\x7b.*\x7d', s, re.DOTALL)`: with a greedy `.*` matching
newlines, the match (when it exists) runs from the first `\x7b` to the last
`\x7d` of the string. -/
def braceSpan (s : Str) : Option Str :=
  let t := s.dropWhile (fun c => !(c = '\x7b'))
  let u := (t.reverse.dropWhile (fun c => !(c = '\x7d'))).reverse
  if u.isEmpty then none else some u

/-- Message of the `ValueError` raised when both parse attempts fail. -/
def jsonErrPrefix : Str := ("Не удалось распарсить JSON из ответа: ".data)

def jsonErrorMsg (response : Str) : Str := jsonErrPrefix ++ response.take 200

/-- The full parsing policy of `generate_json` applied to the backend response
text: fence-strip and parse; on failure parse the first-to-last brace span; on
failure raise `ValueError` (modelled as `Except.error` with the message). -/
def parseJsonResponse (raw : Str) : Except Str JVal :=
  let response := stripFences raw
  match json_loads response with
  | some v => Except.ok v
  | none =>
    match braceSpan response with
    | some span =>
      (match json_loads span with
       | some v => Except.ok v
       | none => Except.error (jsonErrorMsg response))
    | none => Except.error (jsonErrorMsg response)

/-! ## `utils/validators.py`: `GoogleAdsValidator` -/
def HEADLINE_MAX_LENGTH : Nat := 30

def DESCRIPTION_MAX_LENGTH : Nat := 90

def PATH_MAX_LENGTH : Nat := 15

/-- `validate_headline`: returns `(valid, message)`. -/
def validate_headline (headline : Str) : Bool × Str :=
  if headline.isEmpty then (false, ("Заголовок не может быть пустым".data))
  else if headline.length > HEADLINE_MAX_LENGTH then
    (false, ("Заголовок слишком длинный: ".data) ++ natStr headline.length ++
      (" символов (макс. ".data) ++ natStr HEADLINE_MAX_LENGTH ++ (")".data))
  else (true, ("OK".data))

/-- `validate_description`: returns `(valid, message)`. -/
def validate_description (description : Str) : Bool × Str :=
  if description.isEmpty then (false, ("Описание не может быть пустым".data))
  else if description.length > DESCRIPTION_MAX_LENGTH then
    (false, ("Описание слишком длинное: ".data) ++ natStr description.length ++
      (" символов (макс. ".data) ++ natStr DESCRIPTION_MAX_LENGTH ++ (")".data))
  else (true, ("OK".data))

/-- `path.replace('-', '').replace('_', '').isalnum()` (ASCII model of
`isalnum`; Python's `isalnum` is `False` on the empty string). -/
def pathCoreAlnum (path : Str) : Bool :=
  let cleaned := (path.filter (fun c => !(c = '-'))).filter (fun c => !(c = '_'))
  !cleaned.isEmpty && cleaned.all Char.isAlphanum

/-- `validate_path`: the empty path is valid (optional). -/
def validate_path (path : Str) : Bool × Str :=
  if path.isEmpty then (true, ("OK".data))
  else if path.length > PATH_MAX_LENGTH then
    (false, ("Путь слишком длинный: ".data) ++ natStr path.length ++
      (" символов (макс. ".data) ++ natStr PATH_MAX_LENGTH ++ (")".data))
  else if !pathCoreAlnum path then
    (false, ("Путь может содержать только буквы, цифры, дефисы и подчеркивания".data))
  else (true, ("OK".data))

/-- `validate_ad`: collects prefixed error messages; path checks run only for
truthy (non-empty) paths. -/
def validate_ad (headline description : Str) (path1 path2 : Str) : List Str :=
  let errors : List Str := []
  let errors :=
    match validate_headline headline with
    | (valid, msg) => if valid then errors else errors ++ [("Заголовок: ".data) ++ msg]
  let errors :=
    match validate_description description with
    | (valid, msg) => if valid then errors else errors ++ [("Описание: ".data) ++ msg]
  let errors :=
    if path1.isEmpty then errors
    else match validate_path path1 with
      | (valid, msg) => if valid then errors else errors ++ [("Путь 1: ".data) ++ msg]
  let errors :=
    if path2.isEmpty then errors
    else match validate_path path2 with
      | (valid, msg) => if valid then errors else errors ++ [("Путь 2: ".data) ++ msg]
  errors

/-- `truncate_headline`: truncate to the 30-character limit with `...`. -/
def truncate_headline (headline : Str) : Str :=
  if headline.length ≤ HEADLINE_MAX_LENGTH then headline
  else headline.take (HEADLINE_MAX_LENGTH - 3) ++ ("...".data)

/-- `truncate_description`: truncate to the 90-character limit with `...`. -/
def truncate_description (description : Str) : Str :=
  if description.length ≤ DESCRIPTION_MAX_LENGTH then description
  else description.take (DESCRIPTION_MAX_LENGTH - 3) ++ ("...".data)

/-- A 100-character string, used to exercise the truncation branches. -/
def longSample : Str :=
  (("aaaaaaaaaaaaaaaaaaaaaaaaaaaaaaaaaaaaaaaaaaaaaaaaaaaaaaaaaaaaaaaaaaaaaaaaaaaaaaaaaaaaaaaaaaaaaaaaaa").data)

/-! ## `ai/ai_generator.py`: `generate_keywords` and its fallback

The backend interaction of `generate_keywords` is `self.generate_json(...)`,
which either returns a parsed dictionary or raises; that outcome is the
`Except` parameter below.  On any exception the code returns
`self._generate_fallback_keywords(fab_analysis)`. -/
structure KeywordRecord where
  keyword : Str
  match_type : Str
  search_volume : Str
  commercial_intent : Str
  category : Str

/-- The `{"keywords": [...]}` dictionary shape. -/
structure KeywordsResult where
  keywords : List KeywordRecord

/-- The fields of the FAB-analysis dictionary read by the fallback
(`product_name` and `target_audience` via `.get(..., '')`; the latter is
fetched but unused by the code). -/
structure FABAnalysis where
  product_name : Str
  target_audience : Str

/-- The record built for each long-enough word of the product name. -/
def broadProductRecord (word : Str) : KeywordRecord :=
  ⟨word, ("broad".data), ("medium".data), ("high".data), ("transactional".data)⟩

/-- The four fixed generic commercial keywords of the fallback. -/
def genericKeywords : List KeywordRecord :=
  [⟨("buy".data), ("phrase".data), ("high".data), ("high".data), ("transactional".data)⟩,
   ⟨("price".data), ("phrase".data), ("high".data), ("high".data), ("transactional".data)⟩,
   ⟨("order".data), ("phrase".data), ("medium".data), ("high".data), ("transactional".data)⟩,
   ⟨("services".data), ("broad".data), ("high".data), ("medium".data), ("informational".data)⟩]

/-- `_generate_fallback_keywords`: tokenize the lower-cased product name,
keep words longer than three characters as broad-match records, then extend
with the four generic records. -/
def generate_fallback_keywords (fab : FABAnalysis) : KeywordsResult :=
  let product_name := fab.product_name
  let words := pySplit (pyLower product_name)
  let keywords := words.foldl
    (fun acc word => if word.length > 3 then acc ++ [broadProductRecord word] else acc) []
  ⟨keywords ++ genericKeywords⟩

/-- `generate_keywords`: return the backend's parsed dictionary, or the local
fallback when the backend raised. -/
def generate_keywords (backend : Except Str KeywordsResult) (fab : FABAnalysis) : KeywordsResult :=
  match backend with
  | Except.ok r => r
  | Except.error _ => generate_fallback_keywords fab

/-! ## `ai/ai_generator.py`: `AIGenerator.__init__` and `config.py` settings

The constructor resolves provider/model with Python `or` against the settings
defaults, then builds the third-party client for the chosen provider, raising
`ValueError` only for an unknown provider string.  The third-party client
constructors (`OpenAI`, `Anthropic`, `genai.configure`, `ollama`, `Groq`)
accept any string credential without validating it — they reject only a `None`
key with no environment fallback — so client construction is modelled as
always succeeding for the (always string-valued) settings keys; the
`ImportError` branches are not modelled (the libraries are assumed
installed). -/
structure Settings where
  openai_api_key : Str
  anthropic_api_key : Str
  google_api_key : Str
  groq_api_key : Str
  ai_provider : Str
  ai_model : Str

/-- The defaults of `config.Settings` (empty credentials, Google provider). -/
def defaultSettings : Settings :=
  ⟨[], [], [], [], ("google".data), ("gemini-2.0-flash".data)⟩

/-- The constructed third-party client, recording the credential it was
given. -/
inductive AIClient where
  | openaiClient (api_key : Str)
  | anthropicClient (api_key : Str)
  | googleClient (api_key : Str)
  | ollamaClient
  | groqClient (api_key : Str)

structure AIGenerator where
  provider : Str
  model : Str
  client : AIClient

/-- `AIGenerator.__init__`: `Except.error` is a raised `ValueError` with the
code's message. -/
def AIGenerator_init (provider model : Option Str) (settings : Settings) :
    Except Str AIGenerator :=
  let p := pyOrStr provider settings.ai_provider
  let m := pyOrStr model settings.ai_model
  if p = ("openai".data) then
    Except.ok ⟨p, m, AIClient.openaiClient settings.openai_api_key⟩
  else if p = ("anthropic".data) then
    Except.ok ⟨p, m, AIClient.anthropicClient settings.anthropic_api_key⟩
  else if p = ("google".data) then
    Except.ok ⟨p, m, AIClient.googleClient settings.google_api_key⟩
  else if p = ("ollama".data) then
    Except.ok ⟨p, m, AIClient.ollamaClient⟩
  else if p = ("groq".data) then
    Except.ok ⟨p, m, AIClient.groqClient settings.groq_api_key⟩
  else
    Except.error (("Неизвестный провайдер: ".data) ++ p)

/-! ## `google_ads/mcp_server.py`: `GoogleAdsMCPServer`

Result rows returned by `client.search` are externally produced data, modelled
as flat field maps.  Each tool wraps its body in `try/except`: the body's only
failable step is the client call (query building in `ads_queries.py` is pure
string templating), so each tool takes the client call's outcome as an
`Except Str` value — `Except.error e` models the client raising an exception
whose `str(...)` is `e`.  Parameters that only feed the built query string are
kept for signature fidelity but do not influence the envelope. -/
/-- A result row, as a flat field map. -/
abbrev Row := List (Str × Str)

/-- An entry of `get_available_tools()`. -/
structure ToolDesc where
  name : Str
  description : Str
  parameters : List (Str × Str)

/-- Values stored in a tool's result dictionary. -/
inductive Val where
  | vbool (b : Bool)
  | vstr (s : Str)
  | vnat (n : Nat)
  | vnone
  | vrows (rows : List Row)
  | vrow (r : Row)
  | vtools (tools : List ToolDesc)

abbrev Dict := List (Str × Val)

/-- The `{'success': False, 'error': str(e)}` envelope of every `except`
branch. -/
def failEnvelope (e : Str) : Dict :=
  [(("success".data), Val.vbool false), (("error".data), Val.vstr e)]

/-- `try: ... except Exception as e: return {'success': False, 'error': str(e)}`. -/
def tryEnvelope (body : Except Str Dict) : Dict :=
  match body with
  | Except.ok d => d
  | Except.error e => failEnvelope e

/-- Whether a dictionary carries a boolean under the `success` key. -/
def hasBoolSuccess (d : Dict) : Bool :=
  match List.lookup (("success".data) : Str) d with
  | some (Val.vbool _) => true
  | _ => false

/-- `str(r.get('campaign', \x7b\x7d).get('id'))`, with the nested access
flattened to the `campaign.id` field and Python's `str(None)` for a missing
field. -/
def rowCampaignId (row : Row) : Str :=
  match List.lookup (("campaign.id".data) : Str) row with
  | some s => s
  | none => ("None".data)

def list_accounts (clientList : Except Str (List Row)) : Dict :=
  tryEnvelope (do
    let customers ← clientList
    pure [(("success".data), Val.vbool true),
          (("count".data), Val.vnat customers.length),
          (("accounts".data), Val.vrows customers)])

def get_account_info (customer_id selfCid : Option Str)
    (clientInfo : Except Str Row) : Dict :=
  tryEnvelope (do
    let cid := pyOrOpt customer_id selfCid
    if optTruthy cid = false then
      pure [(("success".data), Val.vbool false),
            (("error".data), Val.vstr ("No customer ID provided".data))]
    else do
      let info ← clientInfo
      pure [(("success".data), Val.vbool true), (("account".data), Val.vrow info)])

def get_account_summary (date_range : Str) (clientSearch : Except Str (List Row)) : Dict :=
  tryEnvelope (do
    let results ← clientSearch
    pure [(("success".data), Val.vbool true),
          (("summary".data), Val.vrow (results.headD [])),
          (("date_range".data), Val.vstr date_range)])

def get_campaigns (date_range : Str) (status_filter : Option Str)
    (clientSearch : Except Str (List Row)) : Dict :=
  tryEnvelope (do
    let results ← clientSearch
    pure [(("success".data), Val.vbool true),
          (("count".data), Val.vnat results.length),
          (("campaigns".data), Val.vrows results),
          (("date_range".data), Val.vstr date_range)])

def get_campaign_performance (campaign_id : Str) (date_range : Str)
    (clientSearch : Except Str (List Row)) : Dict :=
  tryEnvelope (do
    let results ← clientSearch
    let campaign_data := results.filter (fun row => rowCampaignId row == campaign_id)
    pure [(("success".data), Val.vbool true),
          (("campaign".data),
            match campaign_data with
            | [] => Val.vnone
            | x :: _ => Val.vrow x),
          (("date_range".data), Val.vstr date_range)])

def get_campaign_budget (campaign_id : Option Str)
    (clientSearch : Except Str (List Row)) : Dict :=
  tryEnvelope (do
    let results ← clientSearch
    pure [(("success".data), Val.vbool true),
          (("count".data), Val.vnat results.length),
          (("budgets".data), Val.vrows results)])

def get_ad_groups (campaign_id : Option Str) (date_range : Str)
    (clientSearch : Except Str (List Row)) : Dict :=
  tryEnvelope (do
    let results ← clientSearch
    pure [(("success".data), Val.vbool true),
          (("count".data), Val.vnat results.length),
          (("ad_groups".data), Val.vrows results),
          (("date_range".data), Val.vstr date_range)])

def get_keywords (campaign_id : Option Str) (date_range : Str) (min_impressions : Nat)
    (clientSearch : Except Str (List Row)) : Dict :=
  tryEnvelope (do
    let results ← clientSearch
    pure [(("success".data), Val.vbool true),
          (("count".data), Val.vnat results.length),
          (("keywords".data), Val.vrows results),
          (("date_range".data), Val.vstr date_range)])

def get_search_terms (campaign_id : Option Str) (date_range : Str)
    (clientSearch : Except Str (List Row)) : Dict :=
  tryEnvelope (do
    let results ← clientSearch
    pure [(("success".data), Val.vbool true),
          (("count".data), Val.vnat results.length),
          (("search_terms".data), Val.vrows results),
          (("date_range".data), Val.vstr date_range)])

def get_negative_keywords (campaign_id : Option Str)
    (clientSearch : Except Str (List Row)) : Dict :=
  tryEnvelope (do
    let results ← clientSearch
    pure [(("success".data), Val.vbool true),
          (("count".data), Val.vnat results.length),
          (("negative_keywords".data), Val.vrows results)])

def get_ads (campaign_id ad_group_id : Option Str) (date_range : Str)
    (clientSearch : Except Str (List Row)) : Dict :=
  tryEnvelope (do
    let results ← clientSearch
    pure [(("success".data), Val.vbool true),
          (("count".data), Val.vnat results.length),
          (("ads".data), Val.vrows results),
          (("date_range".data), Val.vstr date_range)])

def get_geographic_performance (campaign_id : Option Str) (date_range : Str)
    (clientSearch : Except Str (List Row)) : Dict :=
  tryEnvelope (do
    let results ← clientSearch
    pure [(("success".data), Val.vbool true),
          (("count".data), Val.vnat results.length),
          (("geographic_data".data), Val.vrows results),
          (("date_range".data), Val.vstr date_range)])

def get_device_performance (campaign_id : Option Str) (date_range : Str)
    (clientSearch : Except Str (List Row)) : Dict :=
  tryEnvelope (do
    let results ← clientSearch
    pure [(("success".data), Val.vbool true),
          (("count".data), Val.vnat results.length),
          (("device_data".data), Val.vrows results),
          (("date_range".data), Val.vstr date_range)])

def diagnose_low_quality_scores (min_impressions : Nat)
    (clientSearch : Except Str (List Row)) : Dict :=
  tryEnvelope (do
    let results ← clientSearch
    pure [(("success".data), Val.vbool true),
          (("count".data), Val.vnat results.length),
          (("low_quality_keywords".data), Val.vrows results),
          (("recommendation".data),
            Val.vstr ("Review ad relevance, landing pages, and expected CTR".data))])

def diagnose_high_cost_campaigns (clientSearch : Except Str (List Row)) : Dict :=
  tryEnvelope (do
    let results ← clientSearch
    pure [(("success".data), Val.vbool true),
          (("count".data), Val.vnat results.length),
          (("campaigns".data), Val.vrows results),
          (("recommendation".data),
            Val.vstr ("Review targeting, ad copy, and landing page conversion rate".data))])

def find_disapproved_ads (clientSearch : Except Str (List Row)) : Dict :=
  tryEnvelope (do
    let results ← clientSearch
    pure [(("success".data), Val.vbool true),
          (("count".data), Val.vnat results.length),
          (("disapproved_ads".data), Val.vrows results),
          (("recommendation".data),
            Val.vstr ("Review policy violations and update ad copy".data))])

def run_custom_query (query : Str) (customer_id selfCid : Option Str)
    (clientSearch : Except Str (List Row)) : Dict :=
  tryEnvelope (do
    let _cid := pyOrOpt customer_id selfCid
    let results ← clientSearch
    pure [(("success".data), Val.vbool true),
          (("count".data), Val.vnat results.length),
          (("results".data), Val.vrows results)])

/-- `get_available_tools()`: the static tool catalogue. -/
def get_available_tools : List ToolDesc :=
  [⟨("list_accounts".data), ("List all accessible Google Ads accounts".data), []⟩,
   ⟨("get_account_info".data),
    ("Get detailed information about a specific account".data),
    [(("customer_id".data), ("string (optional)".data))]⟩,
   ⟨("get_account_summary".data),
    ("Get high-level performance summary for the account".data),
    [(("date_range".data), ("string (default: LAST_30_DAYS)".data))]⟩,
   ⟨("get_campaigns".data),
    ("Get all campaigns with performance metrics".data),
    [(("date_range".data), ("string (default: LAST_30_DAYS)".data)),
     (("status_filter".data), ("string (optional: ENABLED, PAUSED, REMOVED)".data))]⟩,
   ⟨("get_campaign_performance".data),
    ("Get detailed performance for a specific campaign".data),
    [(("campaign_id".data), ("string (required)".data)),
     (("date_range".data), ("string (default: LAST_30_DAYS)".data))]⟩,
   ⟨("get_keywords".data),
    ("Get keyword performance data".data),
    [(("campaign_id".data), ("string (optional)".data)),
     (("date_range".data), ("string (default: LAST_30_DAYS)".data)),
     (("min_impressions".data), ("int (default: 0)".data))]⟩,
   ⟨("get_search_terms".data),
    ("Get search terms report (actual searches)".data),
    [(("campaign_id".data), ("string (optional)".data)),
     (("date_range".data), ("string (default: LAST_7_DAYS)".data))]⟩,
   ⟨("diagnose_low_quality_scores".data),
    ("Find keywords with quality scores below 5".data),
    [(("min_impressions".data), ("int (default: 100)".data))]⟩,
   ⟨("diagnose_high_cost_campaigns".data),
    ("Find campaigns with high spend but low conversions".data), []⟩,
   ⟨("run_custom_query".data),
    ("Execute a custom GAQL query".data),
    [(("query".data), ("string (required)".data)),
     (("customer_id".data), ("string (optional)".data))]⟩]

/-- The default "could not understand" envelope of
`process_natural_language_request`. -/
def unrecognizedEnvelope : Dict :=
  [(("success".data), Val.vbool false),
   (("error".data),
    Val.vstr ("Could not understand request. Please use one of the available tools.".data)),
   (("available_tools".data), Val.vtools get_available_tools)]

/-- The client-call outcomes seen by the tools the natural-language router can
dispatch to (one field per dispatch target). -/
structure ServerBehavior where
  accountsList : Except Str (List Row)
  accountSummary : Except Str (List Row)
  campaigns : Except Str (List Row)
  lowQuality : Except Str (List Row)
  negatives : Except Str (List Row)
  keywords : Except Str (List Row)
  searchTerms : Except Str (List Row)
  highCost : Except Str (List Row)
  disapproved : Except Str (List Row)
  geographic : Except Str (List Row)
  device : Except Str (List Row)

/-- `process_natural_language_request`: the fixed keyword-based router over
the lower-cased request, first match wins; dispatched tools receive their
Python default arguments. -/
def process_natural_language_request (srv : ServerBehavior) (request : Str) : Dict :=
  let request_lower := pyLower request
  if pyIn ("accounts".data) request_lower || pyIn ("list accounts".data) request_lower then
    list_accounts srv.accountsList
  else if pyIn ("account summary".data) request_lower ||
      pyIn ("overview".data) request_lower then
    get_account_summary ("LAST_30_DAYS".data) srv.accountSummary
  else if pyIn ("campaigns".data) request_lower &&
      !pyIn ("performance".data) request_lower then
    get_campaigns ("LAST_30_DAYS".data) none srv.campaigns
  else if pyIn ("keywords".data) request_lower then
    (if pyIn ("low quality".data) request_lower ||
        pyIn ("quality score".data) request_lower then
      diagnose_low_quality_scores 100 srv.lowQuality
    else if pyIn ("negative".data) request_lower then
      get_negative_keywords none srv.negatives
    else
      get_keywords none ("LAST_30_DAYS".data) 0 srv.keywords)
  else if pyIn ("search terms".data) request_lower ||
      pyIn ("search queries".data) request_lower then
    get_search_terms none ("LAST_7_DAYS".data) srv.searchTerms
  else if pyIn ("high cost".data) request_lower ||
      pyIn ("expensive".data) request_lower then
    diagnose_high_cost_campaigns srv.highCost
  else if pyIn ("disapproved".data) request_lower ||
      pyIn ("rejected".data) request_lower then
    find_disapproved_ads srv.disapproved
  else if pyIn ("geographic".data) request_lower ||
      pyIn ("location".data) request_lower then
    get_geographic_performance none ("LAST_30_DAYS".data) srv.geographic
  else if pyIn ("device".data) request_lower then
    get_device_performance none ("LAST_30_DAYS".data) srv.device
  else
    unrecognizedEnvelope

/-- A server behaviour with empty successful results, for concrete routing
checks. -/
def anyServer : ServerBehavior :=
  ⟨Except.ok [], Except.ok [], Except.ok [], Except.ok [], Except.ok [], Except.ok [],
   Except.ok [], Except.ok [], Except.ok [], Except.ok [], Except.ok []⟩

/-! ## Why fence peeling is invisible on valid JSON

For claims C2-C4 we need that a successful parse pins down the string's shape:
it starts (after whitespace) with a JSON starter character and its last
non-whitespace character is the final token of the value — in particular
neither end can be a backtick, so `stripFences` leaves valid JSON untouched.
`EndsAt cs r` states that `cs` extends `r` on the left by at least one
character and the character adjacent to `r` is not a backtick. -/
def EndsAt (cs r : Str) : Prop := ∃ pre c, cs = pre ++ c :: r ∧ c ≠ '`'

/-- No left or right brace occurs in the string. -/
def braceFree (l : Str) : Prop := ∀ c ∈ l, c ≠ '\x7b' ∧ c ≠ '\x7d'

/-! ## Theorems -/

/-! ## Basic lemmas about the string model -/
theorem skipWs_split : ∀ cs : Str, ∃ w, cs = w ++ skipWs cs ∧ ∀ x ∈ w, pyWs x = true := by
  intro cs
  induction cs with
  | nil => exact ⟨[], rfl, by simp⟩
  | cons c r ih =>
    by_cases h : pyWs c = true
    · obtain ⟨w, hw, hall⟩ := ih
      refine ⟨c :: w, ?_, ?_⟩
      · simp [skipWs, h]
        exact hw
      · intro x hx
        rcases List.mem_cons.mp hx with rfl | hx
        · exact h
        · exact hall x hx
    · refine ⟨[], ?_, by simp⟩
      simp [skipWs, h]

theorem skipWs_head_not_ws : ∀ cs : Str, skipWs cs = [] ∨ ∃ h t, skipWs cs = h :: t ∧ pyWs h = false := by
  intro cs
  induction cs with
  | nil => left; rfl
  | cons c r ih =>
    by_cases h : pyWs c = true
    · simpa [skipWs, h] using ih
    · right
      exact ⟨c, r, by simp [skipWs, h], by simpa using h⟩

theorem skipWs_cons_not_ws {c : Char} (r : Str) (h : pyWs c = false) : skipWs (c :: r) = c :: r := by
  simp [skipWs, h]

theorem skipWs_eq_nil_all_ws : ∀ cs : Str, skipWs cs = [] → ∀ c ∈ cs, pyWs c = true := by
  intro cs
  induction cs with
  | nil => intro _ c hc; cases hc
  | cons c r ih =>
    intro h x hx
    by_cases hc : pyWs c = true
    · rcases List.mem_cons.mp hx with rfl | hx
      · exact hc
      · exact ih (by simpa [skipWs, hc] using h) x hx
    · simp [skipWs, hc] at h

theorem skipWs_idem (cs : Str) : skipWs (skipWs cs) = skipWs cs := by
  rcases skipWs_head_not_ws cs with h | ⟨a, t, hat, ha⟩
  · simp [h, skipWs]
  · rw [hat, skipWs_cons_not_ws t ha]

theorem pyStrip_split (cs : Str) :
    ∃ a b, cs = a ++ pyStrip cs ++ b ∧ (∀ x ∈ a, pyWs x = true) ∧ ∀ x ∈ b, pyWs x = true := by
  obtain ⟨w, hw, hwall⟩ := skipWs_split cs
  obtain ⟨w2, hw2, hw2all⟩ := skipWs_split (skipWs cs).reverse
  refine ⟨w, w2.reverse, ?_, hwall, ?_⟩
  · have hs : skipWs cs = pyStrip cs ++ w2.reverse := by
      have := congrArg List.reverse hw2
      simpa [pyStrip] using this
    calc cs = w ++ skipWs cs := hw
      _ = w ++ (pyStrip cs ++ w2.reverse) := by rw [hs]
      _ = w ++ pyStrip cs ++ w2.reverse := by rw [List.append_assoc]
  · intro x hx
    exact hw2all x (List.mem_reverse.mp hx)

theorem pyStrip_prefix_of_skipWs (cs : Str) : ∃ b, skipWs cs = pyStrip cs ++ b := by
  obtain ⟨w2, hw2, _⟩ := skipWs_split (skipWs cs).reverse
  refine ⟨w2.reverse, ?_⟩
  have := congrArg List.reverse hw2
  simpa [pyStrip] using this

theorem pyStrip_head_not_ws {cs : Str} {h : Char} {t : Str}
    (he : pyStrip cs = h :: t) : pyWs h = false := by
  obtain ⟨b, hb⟩ := pyStrip_prefix_of_skipWs cs
  rw [he] at hb
  rcases skipWs_head_not_ws cs with hnil | ⟨a, t', hat, ha⟩
  · rw [hnil] at hb; exact absurd hb (by simp)
  · rw [hat] at hb
    have : a = h := by simpa using congrArg List.head? hb
    rwa [this] at ha

theorem pyStrip_last_not_ws {cs : Str} {c : Char}
    (he : (pyStrip cs).getLast? = some c) : pyWs c = false := by
  have hrev : (skipWs ((skipWs cs).reverse)).head? = some c := by
    have he' : ((skipWs ((skipWs cs).reverse)).reverse).getLast? = some c := he
    rwa [List.getLast?_reverse] at he'
  rcases skipWs_head_not_ws (skipWs cs).reverse with hnil | ⟨a, t, hat, ha⟩
  · rw [hnil] at hrev; exact absurd hrev (by simp)
  · rw [hat] at hrev
    have : a = c := by simpa using hrev
    rwa [this] at ha

theorem pyStrip_idem (cs : Str) : pyStrip (pyStrip cs) = pyStrip cs := by
  match hp : pyStrip cs with
  | [] => rfl
  | h :: t =>
    have hh := pyStrip_head_not_ws hp
    have h1 : skipWs (pyStrip cs) = pyStrip cs := by rw [hp]; exact skipWs_cons_not_ws t hh
    show (skipWs ((skipWs (h :: t)).reverse)).reverse = h :: t
    rw [← hp, h1]
    show (skipWs ((skipWs ((skipWs cs).reverse)).reverse.reverse)).reverse = pyStrip cs
    rw [List.reverse_reverse, skipWs_idem]
    rfl

theorem dots_len : (("...".data) : Str).length = 3 := rfl

/-- C6: strings at or under the limit (30 for headlines, 90 for descriptions)
are returned unchanged; oversized strings are truncated to at most the limit
and end in the fixed `...` marker; both truncation operations are idempotent. -/
theorem truncate_headline_description_spec (s : Str) :
    (s.length ≤ 30 → truncate_headline s = s) ∧
    (s.length > 30 →
      (truncate_headline s).length ≤ 30 ∧ ∃ t, truncate_headline s = t ++ ("...".data)) ∧
    truncate_headline (truncate_headline s) = truncate_headline s ∧
    (s.length ≤ 90 → truncate_description s = s) ∧
    (s.length > 90 →
      (truncate_description s).length ≤ 90 ∧ ∃ t, truncate_description s = t ++ ("...".data)) ∧
    truncate_description (truncate_description s) = truncate_description s := by
  have hhl : ∀ u : Str, u.length ≤ 30 → truncate_headline u = u := by
    intro u hu
    simp [truncate_headline, HEADLINE_MAX_LENGTH, hu]
  have hdl : ∀ u : Str, u.length ≤ 90 → truncate_description u = u := by
    intro u hu
    simp [truncate_description, DESCRIPTION_MAX_LENGTH, hu]
  have hhlen : s.length > 30 → (truncate_headline s).length ≤ 30 := by
    intro h
    have hn : ¬ s.length ≤ 30 := by omega
    simp [truncate_headline, HEADLINE_MAX_LENGTH, hn, List.length_append, List.length_take]
  have hdlen : s.length > 90 → (truncate_description s).length ≤ 90 := by
    intro h
    have hn : ¬ s.length ≤ 90 := by omega
    simp [truncate_description, DESCRIPTION_MAX_LENGTH, hn, List.length_append, List.length_take]
  refine ⟨hhl s, fun h => ⟨hhlen h, ?_⟩, ?_, hdl s, fun h => ⟨hdlen h, ?_⟩, ?_⟩
  · have hn : ¬ s.length ≤ 30 := by omega
    exact ⟨s.take (HEADLINE_MAX_LENGTH - 3),
      by simp [truncate_headline, HEADLINE_MAX_LENGTH, hn]⟩
  · by_cases h : s.length ≤ 30
    · rw [hhl s h]
      exact hhl s h
    · exact hhl _ (hhlen (by omega))
  · have hn : ¬ s.length ≤ 90 := by omega
    exact ⟨s.take (DESCRIPTION_MAX_LENGTH - 3),
      by simp [truncate_description, DESCRIPTION_MAX_LENGTH, hn]⟩
  · by_cases h : s.length ≤ 90
    · rw [hdl s h]
      exact hdl s h
    · exact hdl _ (hdlen (by omega))

/-- Witness for the truncation claim at concrete compliant and oversized
strings. -/
theorem truncate_headline_description_spec_witness :
    truncate_headline ("ok".data) = ("ok".data) ∧
    (truncate_headline longSample).length ≤ 30 ∧
    (∃ t, truncate_headline longSample = t ++ ("...".data)) ∧
    truncate_description ("ok".data) = ("ok".data) ∧
    (truncate_description longSample).length ≤ 90 ∧
    (∃ t, truncate_description longSample = t ++ ("...".data)) := by
  have T := truncate_headline_description_spec
  exact ⟨(T (("ok").data)).1 (by decide),
    ((T longSample).2.1 (by decide)).1,
    ((T longSample).2.1 (by decide)).2,
    (T (("ok").data)).2.2.2.1 (by decide),
    ((T longSample).2.2.2.2.1 (by decide)).1,
    ((T longSample).2.2.2.2.1 (by decide)).2⟩

/-- Helper: a prefix test fails when the head characters differ. -/
theorem isPrefixOf_head_ne {a b : Char} (l m : Str) (h : (a == b) = false) :
    (a :: l).isPrefixOf (b :: m) = false := by
  simp only [List.isPrefixOf, h, Bool.false_and]

/-- `validate_ad`, written as the concatenation of its four error blocks. -/
theorem validate_ad_eq (h d p1 p2 : Str) : validate_ad h d p1 p2 =
    (if (validate_headline h).1 then [] else [("Заголовок: ".data) ++ (validate_headline h).2]) ++
    (if (validate_description d).1 then []
     else [("Описание: ".data) ++ (validate_description d).2]) ++
    (if p1.isEmpty then []
     else if (validate_path p1).1 then [] else [("Путь 1: ".data) ++ (validate_path p1).2]) ++
    (if p2.isEmpty then []
     else if (validate_path p2).1 then [] else [("Путь 2: ".data) ++ (validate_path p2).2]) := by
  rcases h1 : validate_headline h with ⟨v1, m1⟩
  rcases h2 : validate_description d with ⟨v2, m2⟩
  rcases h3 : validate_path p1 with ⟨v3, m3⟩
  rcases h4 : validate_path p2 with ⟨v4, m4⟩
  simp only [validate_ad, h1, h2, h3, h4]
  cases v1 <;> cases v2 <;> cases v3 <;> cases v4 <;>
    by_cases hp1 : p1.isEmpty <;> by_cases hp2 : p2.isEmpty <;> simp [hp1, hp2]

theorem isPrefixOf_append_self : ∀ l t : Str, l.isPrefixOf (l ++ t) = true
  | [], _ => by simp [List.isPrefixOf]
  | a :: l, t => by simp [List.isPrefixOf, isPrefixOf_append_self l t]

theorem path_tag_not_on_headline (m : Str) :
    (("Путь").data).isPrefixOf ((("Заголовок: ").data) ++ m) = false := by
  show ('П' :: (("уть").data)).isPrefixOf ('З' :: ((("аголовок: ").data) ++ m)) = false
  exact isPrefixOf_head_ne _ _ (by decide)

theorem path_tag_not_on_description (m : Str) :
    (("Путь").data).isPrefixOf ((("Описание: ").data) ++ m) = false := by
  show ('П' :: (("уть").data)).isPrefixOf ('О' :: ((("писание: ").data) ++ m)) = false
  exact isPrefixOf_head_ne _ _ (by decide)

/-- C10: the empty string is valid as a path but invalid as a headline or a
description, so `validate_ad` never reports a path error when both paths are
empty, yet always reports a headline (resp. description) error when the
headline (resp. description) is empty. -/
theorem validator_empty_string_asymmetry :
    validate_path [] = (true, ("OK".data)) ∧
    (validate_headline []).1 = false ∧ (validate_headline []).2 ≠ [] ∧
    (validate_description []).1 = false ∧ (validate_description []).2 ≠ [] ∧
    (∀ h d e, e ∈ validate_ad h d [] [] → (("Путь").data).isPrefixOf e = false) ∧
    (∀ d p1 p2, ∃ e, e ∈ validate_ad [] d p1 p2 ∧
      (("Заголовок: ").data).isPrefixOf e = true) ∧
    (∀ h p1 p2, ∃ e, e ∈ validate_ad h [] p1 p2 ∧
      (("Описание: ").data).isPrefixOf e = true) := by
  refine ⟨rfl, rfl, by decide, rfl, by decide, ?_, ?_, ?_⟩
  · intro h d e he
    rw [validate_ad_eq] at he
    simp only [List.isEmpty_nil, if_true, List.append_nil] at he
    rcases List.mem_append.mp he with h1 | h2
    · by_cases c1 : (validate_headline h).1 = true
      · simp [c1] at h1
      · simp only [Bool.not_eq_true] at c1
        simp [c1] at h1
        subst h1
        exact path_tag_not_on_headline _
    · by_cases c2 : (validate_description d).1 = true
      · simp [c2] at h2
      · simp only [Bool.not_eq_true] at c2
        simp [c2] at h2
        subst h2
        exact path_tag_not_on_description _
  · intro d p1 p2
    refine ⟨("Заголовок: ".data) ++ (validate_headline []).2, ?_, isPrefixOf_append_self _ _⟩
    rw [validate_ad_eq]
    simp [show (validate_headline ([] : Str)).1 = false from rfl]
  · intro h p1 p2
    refine ⟨("Описание: ".data) ++ (validate_description []).2, ?_, isPrefixOf_append_self _ _⟩
    rw [validate_ad_eq]
    simp [show (validate_description ([] : Str)).1 = false from rfl]

/-- Witness for `validator_empty_string_asymmetry` at concrete inputs. -/
theorem validator_empty_string_asymmetry_witness :
    (("Путь").data).isPrefixOf
      (("Заголовок: Заголовок не может быть пустым").data) = false ∧
    (∃ e, e ∈ validate_ad [] ("d".data) ("p1".data) [] ∧
      (("Заголовок: ").data).isPrefixOf e = true) ∧
    (∃ e, e ∈ validate_ad ("h".data) [] [] [] ∧
      (("Описание: ").data).isPrefixOf e = true) := by
  have T := validator_empty_string_asymmetry
  exact ⟨T.2.2.2.2.2.1 [] (("d").data) _ (by decide),
    T.2.2.2.2.2.2.1 (("d").data) (("p1").data) [],
    T.2.2.2.2.2.2.2 (("h").data) [] []⟩

theorem foldl_append_filter (f : Str → KeywordRecord) :
    ∀ (l : List Str) (init : List KeywordRecord),
      l.foldl (fun acc w => if w.length > 3 then acc ++ [f w] else acc) init =
        init ++ (l.filter (fun w => decide (w.length > 3))).map f := by
  intro l
  induction l with
  | nil => intro init; simp
  | cons a l ih =>
    intro init
    by_cases h : a.length > 3 <;> simp [h, ih, List.filter_cons]

/-- C5: on any backend failure, `generate_keywords` returns exactly the
broad-match records of the lower-cased product-name words longer than three
characters followed by the four fixed generic records, and the result is never
empty. -/
theorem generate_keywords_fallback_spec (e : Str) (fab : FABAnalysis) :
    (generate_keywords (Except.error e) fab).keywords =
      ((pySplit (pyLower fab.product_name)).filter
          (fun w => decide (w.length > 3))).map broadProductRecord ++ genericKeywords ∧
    (generate_keywords (Except.error e) fab).keywords ≠ [] := by
  constructor
  · show (generate_fallback_keywords fab).keywords = _
    simp only [generate_fallback_keywords]
    rw [foldl_append_filter]
    simp
  · show (generate_fallback_keywords fab).keywords ≠ []
    simp only [generate_fallback_keywords]
    rw [foldl_append_filter]
    simp [genericKeywords]

/-- C8 counterexample: the claim fails on the code.  Constructing the adapter
for `openai` while the `openai` credential is absent (the empty default)
succeeds — no error is raised and a fully initialized adapter is returned —
and an empty provider string (outside the fixed set) also succeeds by falling
back to the configured default provider. -/
theorem AIGenerator_init_missing_credential_counterexample :
    AIGenerator_init (some ("openai".data)) none defaultSettings =
      Except.ok ⟨("openai".data), ("gemini-2.0-flash".data), AIClient.openaiClient []⟩ ∧
    AIGenerator_init (some []) none defaultSettings =
      Except.ok ⟨("google".data), ("gemini-2.0-flash".data), AIClient.googleClient []⟩ := by
  exact ⟨rfl, rfl⟩

/-- C8 (amended): a non-empty provider string outside the fixed five-element
set makes the constructor raise `ValueError` at construction time, for every
settings value; a missing credential, by contrast, is not checked at
construction (see the counterexample). -/
theorem AIGenerator_init_unknown_provider (p : Str) (s : Settings)
    (hne : p ≠ [])
    (h1 : p ≠ ("openai".data)) (h2 : p ≠ ("anthropic".data))
    (h3 : p ≠ ("google".data)) (h4 : p ≠ ("ollama".data))
    (h5 : p ≠ ("groq".data)) :
    AIGenerator_init (some p) none s = Except.error (("Неизвестный провайдер: ".data) ++ p) := by
  have hp : pyOrStr (some p) s.ai_provider = p := by
    simp [pyOrStr, List.isEmpty_iff, hne]
  simp only [AIGenerator_init, hp]
  rw [if_neg h1, if_neg h2, if_neg h3, if_neg h4, if_neg h5]

/-- Witness: the unknown provider string `"azure"` is rejected. -/
theorem AIGenerator_init_unknown_provider_witness :
    AIGenerator_init (some ("azure".data)) none defaultSettings =
      Except.error (("Неизвестный провайдер: ".data) ++ ("azure".data)) :=
  AIGenerator_init_unknown_provider ("azure".data) defaultSettings
    (by decide) (by decide) (by decide) (by decide) (by decide) (by decide)

/-- C1: every registered tool returns a dictionary with a boolean `success`
key for every client behaviour, and when the client raises, the returned
envelope is exactly `{'success': False, 'error': str(e)}` (for
`get_account_info`, provided a truthy customer id reaches the client call —
with a falsy id the code returns its `No customer ID provided` envelope
without calling the client). -/
theorem mcp_tools_envelope_spec :
    (∀ r, hasBoolSuccess (list_accounts r) = true) ∧
    (∀ e, list_accounts (Except.error e) = failEnvelope e) ∧
    (∀ a b r, hasBoolSuccess (get_account_info a b r) = true) ∧
    (∀ a b e, optTruthy (pyOrOpt a b) = true →
      get_account_info a b (Except.error e) = failEnvelope e) ∧
    (∀ dr r, hasBoolSuccess (get_account_summary dr r) = true) ∧
    (∀ dr e, get_account_summary dr (Except.error e) = failEnvelope e) ∧
    (∀ dr sf r, hasBoolSuccess (get_campaigns dr sf r) = true) ∧
    (∀ dr sf e, get_campaigns dr sf (Except.error e) = failEnvelope e) ∧
    (∀ cid dr r, hasBoolSuccess (get_campaign_performance cid dr r) = true) ∧
    (∀ cid dr e, get_campaign_performance cid dr (Except.error e) = failEnvelope e) ∧
    (∀ cid r, hasBoolSuccess (get_campaign_budget cid r) = true) ∧
    (∀ cid e, get_campaign_budget cid (Except.error e) = failEnvelope e) ∧
    (∀ cid dr r, hasBoolSuccess (get_ad_groups cid dr r) = true) ∧
    (∀ cid dr e, get_ad_groups cid dr (Except.error e) = failEnvelope e) ∧
    (∀ cid dr mi r, hasBoolSuccess (get_keywords cid dr mi r) = true) ∧
    (∀ cid dr mi e, get_keywords cid dr mi (Except.error e) = failEnvelope e) ∧
    (∀ cid dr r, hasBoolSuccess (get_search_terms cid dr r) = true) ∧
    (∀ cid dr e, get_search_terms cid dr (Except.error e) = failEnvelope e) ∧
    (∀ cid r, hasBoolSuccess (get_negative_keywords cid r) = true) ∧
    (∀ cid e, get_negative_keywords cid (Except.error e) = failEnvelope e) ∧
    (∀ cid gid dr r, hasBoolSuccess (get_ads cid gid dr r) = true) ∧
    (∀ cid gid dr e, get_ads cid gid dr (Except.error e) = failEnvelope e) ∧
    (∀ cid dr r, hasBoolSuccess (get_geographic_performance cid dr r) = true) ∧
    (∀ cid dr e, get_geographic_performance cid dr (Except.error e) = failEnvelope e) ∧
    (∀ cid dr r, hasBoolSuccess (get_device_performance cid dr r) = true) ∧
    (∀ cid dr e, get_device_performance cid dr (Except.error e) = failEnvelope e) ∧
    (∀ mi r, hasBoolSuccess (diagnose_low_quality_scores mi r) = true) ∧
    (∀ mi e, diagnose_low_quality_scores mi (Except.error e) = failEnvelope e) ∧
    (∀ r, hasBoolSuccess (diagnose_high_cost_campaigns r) = true) ∧
    (∀ e, diagnose_high_cost_campaigns (Except.error e) = failEnvelope e) ∧
    (∀ r, hasBoolSuccess (find_disapproved_ads r) = true) ∧
    (∀ e, find_disapproved_ads (Except.error e) = failEnvelope e) ∧
    (∀ q a b r, hasBoolSuccess (run_custom_query q a b r) = true) ∧
    (∀ q a b e, run_custom_query q a b (Except.error e) = failEnvelope e) := by
  refine ⟨fun r => by cases r <;> rfl,
    fun e => rfl,
    fun a b r => ?_,
    fun a b e h => ?_,
    fun dr r => by cases r <;> rfl,
    fun dr e => rfl,
    fun dr sf r => by cases r <;> rfl,
    fun dr sf e => rfl,
    fun cid dr r => by cases r <;> rfl,
    fun cid dr e => rfl,
    fun cid r => by cases r <;> rfl,
    fun cid e => rfl,
    fun cid dr r => by cases r <;> rfl,
    fun cid dr e => rfl,
    fun cid dr mi r => by cases r <;> rfl,
    fun cid dr mi e => rfl,
    fun cid dr r => by cases r <;> rfl,
    fun cid dr e => rfl,
    fun cid r => by cases r <;> rfl,
    fun cid e => rfl,
    fun cid gid dr r => by cases r <;> rfl,
    fun cid gid dr e => rfl,
    fun cid dr r => by cases r <;> rfl,
    fun cid dr e => rfl,
    fun cid dr r => by cases r <;> rfl,
    fun cid dr e => rfl,
    fun mi r => by cases r <;> rfl,
    fun mi e => rfl,
    fun r => by cases r <;> rfl,
    fun e => rfl,
    fun r => by cases r <;> rfl,
    fun e => rfl,
    fun q a b r => by cases r <;> rfl,
    fun q a b e => rfl⟩
  · by_cases hc : optTruthy (pyOrOpt a b) = false
    · cases r <;> simp +decide [get_account_info, tryEnvelope, hasBoolSuccess, hc]
    · cases r <;> simp +decide [get_account_info, tryEnvelope, hasBoolSuccess, failEnvelope, hc]
  · have hc : ¬ optTruthy (pyOrOpt a b) = false := by simp [h]
    simp +decide [get_account_info, tryEnvelope, failEnvelope, hc]

/-- Witness for `mcp_tools_envelope_spec`: concrete raising client behaviours
yield the error envelope (here with a truthy customer id for
`get_account_info`). -/
theorem mcp_tools_envelope_spec_witness :
    hasBoolSuccess (list_accounts (Except.error ("boom".data))) = true ∧
    get_account_info (some ("123".data)) none (Except.error ("boom".data)) =
      failEnvelope ("boom".data) ∧
    get_keywords none ("LAST_30_DAYS".data) 0 (Except.error ("boom".data)) =
      failEnvelope ("boom".data) := by
  have T := mcp_tools_envelope_spec
  exact ⟨T.1 _,
    T.2.2.2.1 (some ("123".data)) none ("boom".data) (by decide),
    T.2.2.2.2.2.2.2.2.2.2.2.2.2.2.2.1 none ("LAST_30_DAYS".data) 0 ("boom".data)⟩

theorem isPrefixOf_iff_exists : ∀ p s : Str, p.isPrefixOf s = true ↔ ∃ t, s = p ++ t
  | [], s => by simp [List.isPrefixOf]
  | a :: p, [] => by simp [List.isPrefixOf]
  | a :: p, b :: s => by
    simp only [List.isPrefixOf, Bool.and_eq_true, beq_iff_eq, isPrefixOf_iff_exists p s,
      List.cons_append, List.cons.injEq]
    constructor
    · rintro ⟨rfl, t, rfl⟩
      exact ⟨t, rfl, rfl⟩
    · rintro ⟨t, rfl, rfl⟩
      exact ⟨rfl, t, rfl⟩

theorem pyIn_iff : ∀ n h : Str, pyIn n h = true ↔ ∃ pre post, h = pre ++ n ++ post
  | n, [] => by
    simp only [pyIn, List.isEmpty_iff]
    constructor
    · rintro rfl
      exact ⟨[], [], rfl⟩
    · rintro ⟨pre, post, h⟩
      rcases List.append_eq_nil.mp (List.append_eq_nil.mp h.symm).1 with ⟨-, h2⟩
      exact h2
  | n, c :: t => by
    simp only [pyIn, Bool.or_eq_true, isPrefixOf_iff_exists, pyIn_iff n t]
    constructor
    · rintro (⟨u, hu⟩ | ⟨pre, post, rfl⟩)
      · exact ⟨[], u, by simpa using hu⟩
      · exact ⟨c :: pre, post, rfl⟩
    · rintro ⟨pre, post, h⟩
      match pre, h with
      | [], h => exact Or.inl ⟨post, by simpa using h⟩
      | p :: ps, h =>
        have := (List.cons.injEq ..).mp (by simpa using h)
        exact Or.inr ⟨ps, post, by rw [this.2, List.append_assoc]⟩

theorem pyIn_trans (a b c : Str) (h1 : pyIn a b = true) (h2 : pyIn b c = true) :
    pyIn a c = true := by
  rw [pyIn_iff] at h1 h2 ⊢
  obtain ⟨p1, q1, rfl⟩ := h1
  obtain ⟨p2, q2, h⟩ := h2
  exact ⟨p2 ++ p1, q1 ++ q2, by rw [h]; simp [List.append_assoc]⟩

/-- C7: the router sends `"Show me keywords with low quality"` to the
quality-score diagnostic (never to the generic keyword listing — the result
equals the diagnostic tool's for every server behaviour, and the generic
keyword behaviour is never consulted), and the unmatched input `"banana"`
yields the unrecognized-request envelope, which carries `success = False` and
the available-tools catalogue. -/
theorem nl_router_precedence_and_default (srv : ServerBehavior) :
    process_natural_language_request srv ("Show me keywords with low quality".data) =
      diagnose_low_quality_scores 100 srv.lowQuality ∧
    process_natural_language_request srv ("banana".data) = unrecognizedEnvelope ∧
    List.lookup (("success".data) : Str) unrecognizedEnvelope = some (Val.vbool false) ∧
    List.lookup (("available_tools".data) : Str) unrecognizedEnvelope =
      some (Val.vtools get_available_tools) := by
  exact ⟨rfl, rfl, rfl, rfl⟩

/-- C9: an input mentioning both `campaigns` and `performance` but none of the
other routing keywords falls through every rule — the campaign rule explicitly
excludes `performance` — and produces the unrecognized-request envelope. -/
theorem nl_router_campaigns_performance_excluded (srv : ServerBehavior) (request : Str)
    (h1 : pyIn ("campaigns".data) (pyLower request) = true)
    (h2 : pyIn ("performance".data) (pyLower request) = true)
    (h3 : pyIn ("accounts".data) (pyLower request) = false)
    (h4 : pyIn ("account summary".data) (pyLower request) = false)
    (h5 : pyIn ("overview".data) (pyLower request) = false)
    (h6 : pyIn ("keywords".data) (pyLower request) = false)
    (h7 : pyIn ("search terms".data) (pyLower request) = false)
    (h8 : pyIn ("search queries".data) (pyLower request) = false)
    (h9 : pyIn ("high cost".data) (pyLower request) = false)
    (h10 : pyIn ("expensive".data) (pyLower request) = false)
    (h11 : pyIn ("disapproved".data) (pyLower request) = false)
    (h12 : pyIn ("rejected".data) (pyLower request) = false)
    (h13 : pyIn ("geographic".data) (pyLower request) = false)
    (h14 : pyIn ("location".data) (pyLower request) = false)
    (h15 : pyIn ("device".data) (pyLower request) = false) :
    process_natural_language_request srv request = unrecognizedEnvelope := by
  have hla : pyIn ("list accounts".data) (pyLower request) = false := by
    cases hv : pyIn ("list accounts".data) (pyLower request)
    · rfl
    · have ht := pyIn_trans ("accounts".data) ("list accounts".data) (pyLower request)
        (by decide) hv
      rw [h3] at ht
      cases ht
  simp [process_natural_language_request, h1, h2, h3, h4, h5, h6, h7, h8, h9, h10,
    h11, h12, h13, h14, h15, hla]

/-- Witness: the concrete request `"Campaigns performance"` matches no rule
and produces the unrecognized envelope. -/
theorem nl_router_campaigns_performance_excluded_witness :
    process_natural_language_request anyServer ("Campaigns performance".data) =
      unrecognizedEnvelope :=
  nl_router_campaigns_performance_excluded anyServer ("Campaigns performance".data)
    rfl rfl rfl rfl rfl rfl rfl rfl rfl rfl rfl rfl rfl rfl rfl

theorem endsAt_extend (x : Str) {m r : Str} : EndsAt m r → EndsAt (x ++ m) r :=
  fun ⟨p, c, hm, hc⟩ => ⟨x ++ p, c, by rw [hm, List.append_assoc], hc⟩

theorem jstrAux_split_aux : ∀ n (cs : Str), cs.length ≤ n → ∀ s r, jstrAux cs = some (s, r) →
    ∃ pre, cs = pre ++ '"' :: r := by
  intro n
  induction n with
  | zero =>
    intro cs hlen s r h
    have : cs = [] := List.eq_nil_of_length_eq_zero (Nat.le_zero.mp hlen)
    subst this
    simp [jstrAux] at h
  | succ n ih =>
    intro cs hlen s r h
    rw [jstrAux.eq_def] at h
    split at h
    · simp only [Option.some.injEq, Prod.mk.injEq] at h
      obtain ⟨-, rfl⟩ := h
      exact ⟨[], rfl⟩
    · rename_i a b c d r0
      split at h
      · rcases Option.map_eq_some'.mp h with ⟨⟨s1, r1⟩, hrec, hp⟩
        simp only [Prod.mk.injEq] at hp
        obtain ⟨-, hr⟩ := hp
        subst hr
        have hl : r0.length ≤ n := by simp at hlen; omega
        obtain ⟨pre, hpre⟩ := ih r0 hl s1 _ hrec
        exact ⟨'\\' :: 'u' :: a :: b :: c :: d :: pre, by simp [hpre]⟩
      · simp at h
    · rename_i ech etail hmis
      split at h
      · rename_i ch hch
        rcases Option.map_eq_some'.mp h with ⟨⟨s1, r1⟩, hrec, hp⟩
        simp only [Prod.mk.injEq] at hp
        obtain ⟨-, hr⟩ := hp
        subst hr
        have hl : etail.length ≤ n := by simp at hlen; omega
        obtain ⟨pre, hpre⟩ := ih etail hl s1 _ hrec
        exact ⟨'\\' :: ech :: pre, by simp [hpre]⟩
      · simp at h
    · rename_i cch ctail hm1 hm2 hm3
      split at h
      · simp at h
      · rcases Option.map_eq_some'.mp h with ⟨⟨s1, r1⟩, hrec, hp⟩
        simp only [Prod.mk.injEq] at hp
        obtain ⟨-, hr⟩ := hp
        subst hr
        have hl : ctail.length ≤ n := by simp at hlen; omega
        obtain ⟨pre, hpre⟩ := ih ctail hl s1 _ hrec
        exact ⟨cch :: pre, by simp [hpre]⟩
    · simp at h

theorem jstrAux_split {cs s r : Str} (h : jstrAux cs = some (s, r)) :
    ∃ pre, cs = pre ++ '"' :: r :=
  jstrAux_split_aux cs.length cs (Nat.le.refl) s r h

theorem isDig_ne_backtick {c : Char} (h : isDig c = true) : c ≠ '`' := by
  intro he
  rw [he] at h
  exact absurd h (by decide)

theorem digitSpan_split : ∀ cs : Str, cs = (digitSpan cs).1 ++ (digitSpan cs).2 := by
  intro cs
  induction cs with
  | nil => rfl
  | cons c t ih =>
    by_cases h : isDig c = true
    · simp only [digitSpan, h, if_true]
      exact congrArg (c :: ·) ih
    · simp [digitSpan, h]

theorem digitSpan_all_digits : ∀ cs : Str, ∀ d ∈ (digitSpan cs).1, isDig d = true := by
  intro cs
  induction cs with
  | nil => intro d hd; cases hd
  | cons c t ih =>
    intro d hd
    by_cases h : isDig c = true
    · simp only [digitSpan, h, if_true] at hd
      rcases List.mem_cons.mp hd with rfl | hd
      · exact h
      · exact ih d hd
    · simp [digitSpan, h] at hd

theorem signSplit_append (r : Str) : r = (signSplit r).1 ++ (signSplit r).2 := by
  unfold signSplit
  split <;> rfl

theorem negSplit_append (cs : Str) : cs = (negSplit cs).1 ++ (negSplit cs).2 := by
  unfold negSplit
  split <;> rfl

theorem jnumExp_split : ∀ {cs l r : Str}, jnumExp cs = some (l, r) →
    (l = [] ∧ r = cs) ∨ ∃ pre d, cs = pre ++ d :: r ∧ isDig d = true := by
  intro cs l r h
  cases cs with
  | nil =>
    simp only [jnumExp, Option.some.injEq, Prod.mk.injEq] at h
    exact Or.inl ⟨h.1.symm, h.2.symm⟩
  | cons e rest =>
    simp only [jnumExp] at h
    rcases hsp : signSplit rest with ⟨sp1, sp2⟩
    rw [hsp] at h
    rcases hdp : digitSpan sp2 with ⟨ds, r2⟩
    rw [hdp] at h
    have hrest : rest = sp1 ++ sp2 := by
      have := signSplit_append rest
      rwa [hsp] at this
    have hsp2 : sp2 = ds ++ r2 := by
      have := digitSpan_split sp2
      rwa [hdp] at this
    have hdsall : ∀ d ∈ ds, isDig d = true := by
      intro d hd
      have := digitSpan_all_digits sp2
      rw [hdp] at this
      exact this d hd
    split at h
    · split at h
      · simp at h
      · rename_i hne
        simp only [Option.some.injEq, Prod.mk.injEq] at h
        obtain ⟨hl, hr⟩ := h
        right
        have hne' : ds ≠ [] := by simpa [List.isEmpty_iff] using hne
        obtain ⟨L, d, hLd⟩ := (List.eq_nil_or_concat ds).resolve_left hne'
        refine ⟨e :: sp1 ++ L, d, ?_, hdsall d (by rw [hLd]; simp)⟩
        rw [← hr]
        calc e :: rest = e :: (sp1 ++ (ds ++ r2)) := by rw [hrest, hsp2]
          _ = e :: (sp1 ++ ((L ++ [d]) ++ r2)) := by rw [hLd, List.concat_eq_append]
          _ = (e :: sp1 ++ L) ++ d :: r2 := by simp [List.append_assoc]
    · simp only [Option.some.injEq, Prod.mk.injEq] at h
      exact Or.inl ⟨h.1.symm, h.2.symm⟩

theorem jnumTail_split : ∀ {cs l r : Str}, jnumTail cs = some (l, r) →
    (l = [] ∧ r = cs) ∨ ∃ pre d, cs = pre ++ d :: r ∧ isDig d = true := by
  intro cs l r h
  rw [jnumTail.eq_def] at h
  split at h
  · rename_i r0
    rcases hdp : digitSpan r0 with ⟨ds, r2⟩
    rw [hdp] at h
    dsimp only at h
    have hr0 : r0 = ds ++ r2 := by
      have := digitSpan_split r0
      rwa [hdp] at this
    have hdsall : ∀ d ∈ ds, isDig d = true := by
      intro d hd
      have := digitSpan_all_digits r0
      rw [hdp] at this
      exact this d hd
    split at h
    · simp at h
    · rename_i hne
      rcases Option.map_eq_some'.mp h with ⟨⟨l2, r3⟩, hrec, hp⟩
      simp only [Prod.mk.injEq] at hp
      obtain ⟨-, hr⟩ := hp
      right
      rcases jnumExp_split hrec with ⟨-, hr2⟩ | ⟨pre, d, hpre, hd⟩
      · have hne' : ds ≠ [] := by simpa [List.isEmpty_iff] using hne
        obtain ⟨L, d, hLd⟩ := (List.eq_nil_or_concat ds).resolve_left hne'
        refine ⟨'.' :: L, d, ?_, hdsall d (by rw [hLd]; simp)⟩
        rw [← hr, hr2]
        calc ('.' :: r0 : Str) = '.' :: (L.concat d ++ r2) := by rw [hr0, hLd]
          _ = ('.' :: L) ++ d :: r2 := by simp [List.concat_eq_append]
      · refine ⟨'.' :: ds ++ pre, d, ?_, hd⟩
        rw [← hr]
        calc ('.' :: r0 : Str) = '.' :: (ds ++ (pre ++ d :: r3)) := by rw [hr0, hpre]
          _ = ('.' :: ds ++ pre) ++ d :: r3 := by simp [List.append_assoc]
  · exact jnumExp_split h

theorem jnumParse_split : ∀ {cs l r : Str}, jnumParse cs = some (l, r) →
    ∃ pre d, cs = pre ++ d :: r ∧ isDig d = true := by
  intro cs l r h
  simp only [jnumParse] at h
  rcases hsp : negSplit cs with ⟨sp1, sp2⟩
  rw [hsp] at h
  dsimp only at h
  have hcs : cs = sp1 ++ sp2 := by
    have := negSplit_append cs
    rwa [hsp] at this
  split at h
  · rename_i r1
    rcases Option.map_eq_some'.mp h with ⟨⟨l2, r2⟩, hrec, hp⟩
    simp only [Prod.mk.injEq] at hp
    obtain ⟨-, hr⟩ := hp
    rcases jnumTail_split hrec with ⟨-, hr2⟩ | ⟨pre, d, hpre, hd⟩
    · refine ⟨sp1, '0', ?_, by decide⟩
      rw [hcs, ← hr2, hr]
    · refine ⟨sp1 ++ '0' :: pre, d, ?_, hd⟩
      rw [hcs, hpre, ← hr]
      simp [List.append_assoc]
  · rename_i c r1 hm
    split at h
    · rename_i hc
      rcases hdp : digitSpan r1 with ⟨ds, r2x⟩
      rw [hdp] at h
      dsimp only at h
      have hr1 : r1 = ds ++ r2x := by
        have := digitSpan_split r1
        rwa [hdp] at this
      have hdsall : ∀ d ∈ ds, isDig d = true := by
        intro d hd
        have := digitSpan_all_digits r1
        rw [hdp] at this
        exact this d hd
      have hcdig : isDig c = true := by
        simp only [isDig, Bool.and_eq_true, decide_eq_true_eq]
        exact ⟨le_trans (by decide) hc.1, hc.2⟩
      rcases Option.map_eq_some'.mp h with ⟨⟨l2, r2⟩, hrec, hp⟩
      simp only [Prod.mk.injEq] at hp
      obtain ⟨-, hr⟩ := hp
      rcases jnumTail_split hrec with ⟨-, hr2⟩ | ⟨pre, d, hpre, hd⟩
      · rcases List.eq_nil_or_concat ds with hds | ⟨L, d, hLd⟩
        · refine ⟨sp1, c, ?_, hcdig⟩
          rw [hcs, hr1, hds, ← hr, hr2]
          rfl
        · refine ⟨sp1 ++ c :: L, d, ?_, hdsall d (by rw [hLd]; simp)⟩
          rw [hcs, hr1, hLd, ← hr, hr2]
          simp [List.concat_eq_append, List.append_assoc]
      · refine ⟨sp1 ++ c :: ds ++ pre, d, ?_, hd⟩
        rw [hcs, hr1, hpre, ← hr]
        simp [List.append_assoc]
    · simp at h
  · simp at h

theorem stripLit_split : ∀ {p s r : Str}, stripLit p s = some r → s = p ++ r := by
  intro p
  induction p with
  | nil =>
    intro s r h
    simp only [stripLit, Option.some.injEq] at h
    simp [h]
  | cons c p ih =>
    intro s r h
    cases s with
    | nil => simp [stripLit] at h
    | cons x s =>
      simp only [stripLit] at h
      split at h
      · rename_i hx
        subst hx
        rw [List.cons_append]
        exact congrArg (x :: ·) (ih h)
      · simp at h

theorem endsAt_of_skipWs {cs m r : Str} (heq : skipWs cs = m) (hm : EndsAt m r) : EndsAt cs r := by
  obtain ⟨w, hw, -⟩ := skipWs_split cs
  rw [heq] at hw
  rw [hw]
  exact endsAt_extend w hm

theorem endsAt_chain {cs m r : Str} (h1 : EndsAt cs m) (h2 : EndsAt m r) : EndsAt cs r := by
  obtain ⟨p1, c1, hcs, -⟩ := h1
  obtain ⟨p2, c2, hm, hc2⟩ := h2
  refine ⟨p1 ++ c1 :: p2, c2, ?_, hc2⟩
  rw [hcs, hm]
  simp [List.append_assoc]

theorem endsAt_skipWs_cons {X Y : Str} {t : Char} (heq : skipWs X = t :: Y) (ht : t ≠ '`') :
    EndsAt X Y := by
  obtain ⟨w, hw, -⟩ := skipWs_split X
  rw [heq] at hw
  exact ⟨w, t, hw, ht⟩

/-- The token `c :: p` ends in `d ≠ '\x60'`; consuming it with `stripLit`
leaves a remainder that the input `EndsAt`. -/
theorem endsAt_of_token {c : Char} {p r r2 : Str} (hp : stripLit p r = some r2)
    (L : Str) (d : Char) (hLd : c :: p = L ++ [d]) (hd : d ≠ '`') :
    EndsAt (c :: r) r2 := by
  have hr : r = p ++ r2 := stripLit_split hp
  refine ⟨L, d, ?_, hd⟩
  rw [hr, ← List.cons_append, hLd]
  simp [List.append_assoc]

set_option maxHeartbeats 2000000 in
/-- A successful parse splits the input as `pre ++ [c] ++ rest` with the
character adjacent to `rest` never a backtick (it is the value's final
token). -/
theorem json_endsAt : ∀ fuel : Nat,
    (∀ cs v r, jsonValue fuel cs = some (v, r) → EndsAt cs r) ∧
    (∀ cs l r, jsonArrayTail fuel cs = some (l, r) → EndsAt cs r) ∧
    (∀ cs m r, jsonObjectTail fuel cs = some (m, r) → EndsAt cs r) := by
  intro fuel
  induction fuel with
  | zero =>
    refine ⟨?_, ?_, ?_⟩ <;> intro cs a r h <;> exact Option.noConfusion h
  | succ n ih =>
    obtain ⟨ihv, iha, iho⟩ := ih
    refine ⟨?_, ?_, ?_⟩
    · intro cs v r h
      simp only [jsonValue] at h
      split at h
      · simp at h
      · rename_i c r0 heq
        split at h
        · rename_i hc
          subst hc
          rcases Option.map_eq_some'.mp h with ⟨r2, hp, hpr⟩
          simp only [Prod.mk.injEq] at hpr
          obtain ⟨-, rfl⟩ := hpr
          exact endsAt_of_skipWs heq
            (endsAt_of_token hp ("nul".data) 'l' (by decide) (by decide))
        · split at h
          · rename_i hc
            subst hc
            rcases Option.map_eq_some'.mp h with ⟨r2, hp, hpr⟩
            simp only [Prod.mk.injEq] at hpr
            obtain ⟨-, rfl⟩ := hpr
            exact endsAt_of_skipWs heq
              (endsAt_of_token hp ("tru".data) 'e' (by decide) (by decide))
          · split at h
            · rename_i hc
              subst hc
              rcases Option.map_eq_some'.mp h with ⟨r2, hp, hpr⟩
              simp only [Prod.mk.injEq] at hpr
              obtain ⟨-, rfl⟩ := hpr
              exact endsAt_of_skipWs heq
                (endsAt_of_token hp ("fals".data) 'e' (by decide) (by decide))
            · split at h
              · rename_i hc
                subst hc
                rcases Option.map_eq_some'.mp h with ⟨r2, hp, hpr⟩
                simp only [Prod.mk.injEq] at hpr
                obtain ⟨-, rfl⟩ := hpr
                exact endsAt_of_skipWs heq
                  (endsAt_of_token hp ("Na".data) 'N' (by decide) (by decide))
              · split at h
                · rename_i hc
                  subst hc
                  rcases Option.map_eq_some'.mp h with ⟨r2, hp, hpr⟩
                  simp only [Prod.mk.injEq] at hpr
                  obtain ⟨-, rfl⟩ := hpr
                  exact endsAt_of_skipWs heq
                    (endsAt_of_token hp ("Infinit".data) 'y' (by decide) (by decide))
                · split at h
                  · rename_i hc
                    subst hc
                    rcases Option.map_eq_some'.mp h with ⟨⟨s1, r1⟩, hstr, hpr⟩
                    simp only [Prod.mk.injEq] at hpr
                    obtain ⟨-, rfl⟩ := hpr
                    obtain ⟨pre, hpre⟩ := jstrAux_split hstr
                    exact endsAt_of_skipWs heq
                      ⟨'"' :: pre, '"', by simp [hpre], by decide⟩
                  · split at h
                    · rename_i hc
                      subst hc
                      split at h
                      · rename_i r2 heq2
                        simp only [Option.some.injEq, Prod.mk.injEq] at h
                        obtain ⟨-, rfl⟩ := h
                        exact endsAt_of_skipWs heq
                          (endsAt_extend ['['] (endsAt_skipWs_cons heq2 (by decide)))
                      · rcases Option.map_eq_some'.mp h with ⟨⟨l2, r3⟩, hrec, hpr⟩
                        simp only [Prod.mk.injEq] at hpr
                        obtain ⟨-, rfl⟩ := hpr
                        obtain ⟨w2, hw2, -⟩ := skipWs_split r0
                        refine endsAt_of_skipWs heq (endsAt_extend ['['] ?_)
                        rw [hw2]
                        exact endsAt_extend w2 (iha _ l2 _ hrec)
                    · split at h
                      · rename_i hc
                        subst hc
                        split at h
                        · rename_i r2 heq2
                          simp only [Option.some.injEq, Prod.mk.injEq] at h
                          obtain ⟨-, rfl⟩ := h
                          exact endsAt_of_skipWs heq
                            (endsAt_extend ['\x7b'] (endsAt_skipWs_cons heq2 (by decide)))
                        · rcases Option.map_eq_some'.mp h with ⟨⟨l2, r3⟩, hrec, hpr⟩
                          simp only [Prod.mk.injEq] at hpr
                          obtain ⟨-, rfl⟩ := hpr
                          obtain ⟨w2, hw2, -⟩ := skipWs_split r0
                          refine endsAt_of_skipWs heq (endsAt_extend ['\x7b'] ?_)
                          rw [hw2]
                          exact endsAt_extend w2 (iho _ l2 _ hrec)
                      · split at h
                        · rename_i hc
                          subst hc
                          split at h
                          · rename_i r2 hsl
                            simp only [Option.some.injEq, Prod.mk.injEq] at h
                            obtain ⟨-, rfl⟩ := h
                            exact endsAt_of_skipWs heq
                              (endsAt_of_token hsl ("-Infinit".data) 'y' (by decide) (by decide))
                          · rename_i hsl
                            rcases Option.map_eq_some'.mp h with ⟨⟨lex, r1⟩, hrec, hpr⟩
                            simp only [Prod.mk.injEq] at hpr
                            obtain ⟨-, rfl⟩ := hpr
                            obtain ⟨pre, d, hsplit, hd⟩ := jnumParse_split hrec
                            exact endsAt_of_skipWs heq
                              (hsplit ▸ ⟨pre, d, rfl, isDig_ne_backtick hd⟩)
                        · split at h
                          · rename_i hdig
                            rcases Option.map_eq_some'.mp h with ⟨⟨lex, r1⟩, hrec, hpr⟩
                            simp only [Prod.mk.injEq] at hpr
                            obtain ⟨-, rfl⟩ := hpr
                            obtain ⟨pre, d, hsplit, hd⟩ := jnumParse_split hrec
                            exact endsAt_of_skipWs heq
                              (hsplit ▸ ⟨pre, d, rfl, isDig_ne_backtick hd⟩)
                          · exact Option.noConfusion h
    · intro cs l r h
      simp only [jsonArrayTail] at h
      split at h
      · simp at h
      · rename_i v0 r0 heqv
        split at h
        · rename_i r2 heq2
          simp only [Option.some.injEq, Prod.mk.injEq] at h
          obtain ⟨-, rfl⟩ := h
          exact endsAt_chain (ihv cs v0 r0 heqv) (endsAt_skipWs_cons heq2 (by decide))
        · rename_i r2 heq2
          rcases Option.map_eq_some'.mp h with ⟨⟨tl, r3⟩, hrec, hpr⟩
          simp only [Prod.mk.injEq] at hpr
          obtain ⟨-, rfl⟩ := hpr
          exact endsAt_chain (ihv cs v0 r0 heqv)
            (endsAt_chain (endsAt_skipWs_cons heq2 (by decide)) (iha r2 tl _ hrec))
        · exact Option.noConfusion h
    · intro cs m r h
      simp only [jsonObjectTail] at h
      split at h
      · rename_i r0 heq
        split at h
        · simp at h
        · rename_i k r1 hstr
          split at h
          · rename_i r2 heq2
            split at h
            · simp at h
            · rename_i v0 r3 heqv
              split at h
              · rename_i r4 heq3
                simp only [Option.some.injEq, Prod.mk.injEq] at h
                obtain ⟨-, rfl⟩ := h
                obtain ⟨pre, hpre⟩ := jstrAux_split hstr
                have hkey : EndsAt ('"' :: r0) r1 :=
                  ⟨'"' :: pre, '"', by simp [hpre], by decide⟩
                refine endsAt_of_skipWs heq (endsAt_chain hkey ?_)
                exact endsAt_chain (endsAt_skipWs_cons heq2 (by decide))
                  (endsAt_chain (ihv r2 v0 r3 heqv) (endsAt_skipWs_cons heq3 (by decide)))
              · rename_i r4 heq3
                rcases Option.map_eq_some'.mp h with ⟨⟨tl, r5⟩, hrec, hpr⟩
                simp only [Prod.mk.injEq] at hpr
                obtain ⟨-, rfl⟩ := hpr
                obtain ⟨pre, hpre⟩ := jstrAux_split hstr
                have hkey : EndsAt ('"' :: r0) r1 :=
                  ⟨'"' :: pre, '"', by simp [hpre], by decide⟩
                refine endsAt_of_skipWs heq (endsAt_chain hkey ?_)
                exact endsAt_chain (endsAt_skipWs_cons heq2 (by decide))
                  (endsAt_chain (ihv r2 v0 r3 heqv)
                    (endsAt_chain (endsAt_skipWs_cons heq3 (by decide)) (iho r4 tl _ hrec)))
              · exact Option.noConfusion h
          · exact Option.noConfusion h
      · exact Option.noConfusion h

/-- A successful parse starts (after whitespace) with a JSON starter
character: never a backtick and never `j`. -/
theorem jsonValue_starter {fuel : Nat} {cs : Str} {x : JVal × Str}
    (h : jsonValue fuel cs = some x) :
    ∃ c t, skipWs cs = c :: t ∧ c ≠ '`' ∧ c ≠ 'j' := by
  cases fuel with
  | zero => exact Option.noConfusion h
  | succ n =>
    simp only [jsonValue] at h
    split at h
    · exact Option.noConfusion h
    · rename_i c r0 heq
      refine ⟨c, r0, heq, ?_, ?_⟩ <;> intro he <;> subst he <;> simp +decide at h

theorem isPrefixOf_append_cancel : ∀ x a b : Str,
    (x ++ a).isPrefixOf (x ++ b) = a.isPrefixOf b := by
  intro x
  induction x with
  | nil => intro a b; rfl
  | cons c x ih => intro a b; simp [List.isPrefixOf, ih]

/-- Strings with non-whitespace first and last characters are unchanged by
`strip`. -/
theorem pyStrip_eq_self (l : Str)
    (h1 : ∀ c, l.head? = some c → pyWs c = false)
    (h2 : ∀ c, l.getLast? = some c → pyWs c = false) : pyStrip l = l := by
  cases l with
  | nil => rfl
  | cons c t =>
    have hsk : skipWs (c :: t) = c :: t := skipWs_cons_not_ws t (h1 c rfl)
    show (skipWs ((skipWs (c :: t)).reverse)).reverse = c :: t
    rw [hsk]
    cases hr : (c :: t).reverse with
    | nil => exact absurd (congrArg List.length hr) (by simp)
    | cons d u =>
      have hd : pyWs d = false := by
        apply h2
        rw [← List.head?_reverse, hr]
        rfl
      rw [skipWs_cons_not_ws u hd, ← hr, List.reverse_reverse]

/-- Structural consequences of a successful `json_loads`:
the stripped text is nonempty, starts with a JSON starter (not a backtick,
not `j`), and ends with a value-final token (not a backtick); the raw text
itself starts with whitespace or that same starter. -/
theorem json_loads_shape {J : Str} {v : JVal} (h : json_loads J = some v) :
    (∃ c t, pyStrip J = c :: t ∧ c ≠ '`' ∧ c ≠ 'j') ∧
    (∃ p c, pyStrip J = p ++ [c] ∧ c ≠ '`') ∧
    (∃ c0 t0, J = c0 :: t0 ∧ c0 ≠ '`' ∧ c0 ≠ 'j') := by
  simp only [json_loads] at h
  rcases heqv : jsonValue (2 * (pyStrip J).length + 2) (pyStrip J) with - | ⟨v0, r0⟩
  · rw [heqv] at h
    exact Option.noConfusion h
  · rw [heqv] at h
    dsimp only at h
    by_cases hemp : (skipWs r0).isEmpty = true
    case neg => rw [if_neg hemp] at h; exact Option.noConfusion h
    case pos =>
      rw [if_pos hemp] at h
      have hstarter := jsonValue_starter heqv
      have hskipeq : skipWs (pyStrip J) = pyStrip J := by
        cases hps : pyStrip J with
        | nil => rw [hps] at heqv; simp [jsonValue, skipWs] at heqv
        | cons a t => exact skipWs_cons_not_ws t (pyStrip_head_not_ws hps)
      rw [hskipeq] at hstarter
      obtain ⟨c, t, hct, hc1, hc2⟩ := hstarter
      have hends := (json_endsAt (2 * (pyStrip J).length + 2)).1 (pyStrip J) v0 r0 heqv
      obtain ⟨p, d, hpd, hd⟩ := hends
      have hr0 : r0 = [] := by
        rcases List.eq_nil_or_concat r0 with h0 | ⟨L, e, hLe⟩
        · exact h0
        · exfalso
          have hwe : pyWs e = true := by
            apply skipWs_eq_nil_all_ws r0 (by simpa [List.isEmpty_iff] using hemp)
            rw [hLe]
            simp
          have : (pyStrip J).getLast? = some e := by
            rw [hpd, hLe, List.concat_eq_append]
            rw [show p ++ d :: (L ++ [e]) = (p ++ d :: L) ++ [e] by simp]
            exact List.getLast?_concat _
          rw [pyStrip_last_not_ws this] at hwe
          cases hwe
      refine ⟨⟨c, t, hct, hc1, hc2⟩, ⟨p, d, by rw [hpd, hr0], hd⟩, ?_⟩
      cases hJ : J with
      | nil =>
        rw [hJ] at hct
        simp [pyStrip, skipWs] at hct
      | cons c0 t0 =>
        refine ⟨c0, t0, rfl, ?_⟩
        by_cases hw : pyWs c0 = true
        · constructor <;> intro he <;> rw [he] at hw <;> simp [pyWs] at hw
        · have hw2 : pyWs c0 = false := by simpa using hw
          have hskJ : skipWs J = J := by rw [hJ]; exact skipWs_cons_not_ws t0 hw2
          obtain ⟨b, hb⟩ := pyStrip_prefix_of_skipWs J
          rw [hskJ, hct] at hb
          rw [hJ] at hb
          have : c0 = c := by simpa using congrArg List.head? hb
          rw [this]
          exact ⟨hc1, hc2⟩

theorem getLast?_fence3 (X : Str) : (X ++ fence3).getLast? = some '`' := by
  rw [show X ++ fence3 = (X ++ ('`' :: '`' :: [])) ++ ['`'] by simp [fence3]]
  exact List.getLast?_concat _

/-- On text that `json.loads` accepts, the fence peeling is the identity (the
text never starts or ends with a backtick-fence after stripping). -/
theorem stripFences_of_valid {J : Str} {v : JVal} (h : json_loads J = some v) :
    stripFences J = pyStrip J := by
  obtain ⟨⟨c, t, hct, hc1, -⟩, ⟨p, d, hpd, hd⟩, -⟩ := json_loads_shape h
  have h7 : fence7.isPrefixOf (pyStrip J) = false := by
    rw [hct]
    exact isPrefixOf_head_ne _ _ (beq_eq_false_iff_ne.mpr (Ne.symm hc1))
  have h3 : fence3.isPrefixOf (pyStrip J) = false := by
    rw [hct]
    exact isPrefixOf_head_ne _ _ (beq_eq_false_iff_ne.mpr (Ne.symm hc1))
  have hs : fence3.isSuffixOf (pyStrip J) = false := by
    show fence3.reverse.isPrefixOf (pyStrip J).reverse = false
    rw [hpd, List.reverse_append, show fence3.reverse = fence3 from rfl,
      show ([d] : Str).reverse = [d] from rfl]
    exact isPrefixOf_head_ne _ _ (beq_eq_false_iff_ne.mpr (Ne.symm hd))
  have h7n : ¬ fence7.isPrefixOf (pyStrip J) = true := by rw [h7]; decide
  have h3n : ¬ fence3.isPrefixOf (pyStrip J) = true := by rw [h3]; decide
  have hsn : ¬ fence3.isSuffixOf (pyStrip J) = true := by rw [hs]; decide
  simp only [stripFences]
  rw [if_neg h7n, if_neg h3n, if_neg hsn]

/-- Peeling the fences of a ` ```json `-wrapped valid JSON text recovers the
text. -/
theorem stripFences_wrapJson {J : Str} {v : JVal} (h : json_loads J = some v) :
    stripFences (fence7 ++ J ++ fence3) = J := by
  obtain ⟨-, -, ⟨c0, t0, hJ, hc0bt, -⟩⟩ := json_loads_shape h
  have hstrip : pyStrip (fence7 ++ J ++ fence3) = fence7 ++ J ++ fence3 := by
    apply pyStrip_eq_self
    · intro c hc
      rw [show (fence7 ++ J ++ fence3).head? = some '`' from rfl] at hc
      cases hc
      decide
    · intro c hc
      rw [getLast?_fence3 (fence7 ++ J)] at hc
      cases hc
      decide
  have h7 : fence7.isPrefixOf (fence7 ++ J ++ fence3) = true := by
    rw [List.append_assoc]
    exact isPrefixOf_append_self _ _
  have hdrop : (fence7 ++ J ++ fence3).drop 7 = J ++ fence3 := by
    rw [List.append_assoc, show (7 : Nat) = fence7.length from rfl]
    exact List.drop_left _ _
  have h3 : fence3.isPrefixOf (J ++ fence3) = false := by
    rw [hJ]
    exact isPrefixOf_head_ne _ _ (beq_eq_false_iff_ne.mpr (Ne.symm hc0bt))
  have hsuf : fence3.isSuffixOf (J ++ fence3) = true := by
    show fence3.reverse.isPrefixOf (J ++ fence3).reverse = true
    rw [List.reverse_append]
    exact isPrefixOf_append_self _ _
  have htake : (J ++ fence3).take ((J ++ fence3).length - 3) = J := by
    rw [show (J ++ fence3).length - 3 = J.length by simp [fence3]]
    exact List.take_left _ _
  have h3n : ¬ fence3.isPrefixOf (J ++ fence3) = true := by rw [h3]; decide
  simp only [stripFences]
  rw [hstrip, if_pos h7, hdrop, if_neg h3n, if_pos hsuf, htake]

/-- Peeling the fences of a plain ` ``` `-wrapped valid JSON text recovers the
text. -/
theorem stripFences_wrapPlain {J : Str} {v : JVal} (h : json_loads J = some v) :
    stripFences (fence3 ++ J ++ fence3) = J := by
  obtain ⟨-, -, ⟨c0, t0, hJ, hc0bt, hc0j⟩⟩ := json_loads_shape h
  have hstrip : pyStrip (fence3 ++ J ++ fence3) = fence3 ++ J ++ fence3 := by
    apply pyStrip_eq_self
    · intro c hc
      rw [show (fence3 ++ J ++ fence3).head? = some '`' from rfl] at hc
      cases hc
      decide
    · intro c hc
      rw [getLast?_fence3 (fence3 ++ J)] at hc
      cases hc
      decide
  have h7 : fence7.isPrefixOf (fence3 ++ J ++ fence3) = false := by
    rw [List.append_assoc, show fence7 = fence3 ++ ('j' :: 's' :: 'o' :: 'n' :: []) from rfl,
      isPrefixOf_append_cancel, hJ]
    exact isPrefixOf_head_ne _ _ (beq_eq_false_iff_ne.mpr (Ne.symm hc0j))
  have h3 : fence3.isPrefixOf (fence3 ++ J ++ fence3) = true := by
    rw [List.append_assoc]
    exact isPrefixOf_append_self _ _
  have hdrop : (fence3 ++ J ++ fence3).drop 3 = J ++ fence3 := by
    rw [List.append_assoc, show (3 : Nat) = fence3.length from rfl]
    exact List.drop_left _ _
  have hsuf : fence3.isSuffixOf (J ++ fence3) = true := by
    show fence3.reverse.isPrefixOf (J ++ fence3).reverse = true
    rw [List.reverse_append]
    exact isPrefixOf_append_self _ _
  have htake : (J ++ fence3).take ((J ++ fence3).length - 3) = J := by
    rw [show (J ++ fence3).length - 3 = J.length by simp [fence3]]
    exact List.take_left _ _
  have h7n : ¬ fence7.isPrefixOf (fence3 ++ J ++ fence3) = true := by rw [h7]; decide
  simp only [stripFences]
  rw [hstrip, if_neg h7n, if_pos h3, hdrop, if_pos hsuf, htake]

/-- `json.loads` is insensitive to surrounding whitespace. -/
theorem json_loads_pyStrip (X : Str) : json_loads (pyStrip X) = json_loads X := by
  simp only [json_loads, pyStrip_idem]

/-- C2: for every valid JSON text, `generate_json`'s extraction step applied
to the text wrapped in a leading ` ```json ` (or plain ` ``` `) fence and a
trailing ` ``` ` fence yields exactly the object it yields on the unwrapped
text. -/
theorem generate_json_fenced_equivalence (J : Str) (v : JVal)
    (h : json_loads J = some v) :
    parseJsonResponse (fence7 ++ J ++ fence3) = Except.ok v ∧
    parseJsonResponse (fence3 ++ J ++ fence3) = Except.ok v ∧
    parseJsonResponse J = Except.ok v := by
  have h1 := stripFences_wrapJson h
  have h2 := stripFences_wrapPlain h
  have h3 := stripFences_of_valid h
  have h4 : json_loads (pyStrip J) = some v := by rw [json_loads_pyStrip]; exact h
  refine ⟨?_, ?_, ?_⟩ <;> simp only [parseJsonResponse, h1, h2, h3, h, h4]

/-- Witness: the fenced and unfenced forms of a concrete JSON object extract
to the same object. -/
theorem generate_json_fenced_equivalence_witness :
    parseJsonResponse (fence7 ++ ("\x7b\"a\": 1\x7d".data) ++ fence3) =
      Except.ok (JVal.jobj [(("a".data), JVal.jnum ("1".data))]) ∧
    parseJsonResponse (fence3 ++ ("\x7b\"a\": 1\x7d".data) ++ fence3) =
      Except.ok (JVal.jobj [(("a".data), JVal.jnum ("1".data))]) ∧
    parseJsonResponse (("\x7b\"a\": 1\x7d".data)) =
      Except.ok (JVal.jobj [(("a".data), JVal.jnum ("1".data))]) :=
  generate_json_fenced_equivalence (("\x7b\"a\": 1\x7d".data))
    (JVal.jobj [(("a".data), JVal.jnum ("1".data))]) rfl

theorem dropWhile_append_all {p : Char → Bool} {a : Str} (ha : ∀ c ∈ a, p c = true)
    (x : Str) : (a ++ x).dropWhile p = x.dropWhile p := by
  rw [List.dropWhile_append, List.dropWhile_eq_nil_iff.mpr ha]
  simp

/-- The brace-span regex is unaffected by brace-free text on either side. -/
theorem braceSpan_affix {a s b : Str} (ha : braceFree a) (hb : braceFree b) :
    braceSpan (a ++ s ++ b) = braceSpan s := by
  have hpa : ∀ c ∈ a, (!(c = '\x7b') : Bool) = true := fun c hc => by simp [(ha c hc).1]
  have hqb : ∀ c ∈ b.reverse, (!(c = '\x7d') : Bool) = true := fun c hc => by
    simp [(hb c (List.mem_reverse.mp hc)).2]
  simp only [braceSpan]
  rw [List.append_assoc, dropWhile_append_all hpa, List.dropWhile_append]
  by_cases hts : (s.dropWhile (fun c => !(c = '\x7b'))).isEmpty = true
  · rw [if_pos hts]
    have hb0 : b.dropWhile (fun c => !(c = '\x7b')) = [] := by
      apply List.dropWhile_eq_nil_iff.mpr
      intro c hc
      simp [(hb c hc).1]
    rw [hb0, List.isEmpty_iff.mp hts]
  · rw [if_neg hts, List.reverse_append, dropWhile_append_all hqb]

theorem pyWs_braceFree {c : Char} (h : pyWs c = true) : c ≠ '\x7b' ∧ c ≠ '\x7d' := by
  constructor <;> intro he <;> rw [he] at h <;> simp [pyWs] at h

/-- `stripFences` only removes brace-free text from the two ends. -/
theorem stripFences_decomp (raw : Str) :
    ∃ a b, raw = a ++ stripFences raw ++ b ∧ braceFree a ∧ braceFree b := by
  obtain ⟨a0, b0, hab, ha0, hb0⟩ := pyStrip_split raw
  have hbfa0 : braceFree a0 := fun c hc => pyWs_braceFree (ha0 c hc)
  have hbfb0 : braceFree b0 := fun c hc => pyWs_braceFree (hb0 c hc)
  simp only [stripFences]
  by_cases h7 : fence7.isPrefixOf (pyStrip raw) = true
  case pos =>
    obtain ⟨t7, ht7⟩ := (isPrefixOf_iff_exists fence7 (pyStrip raw)).mp h7
    have hd7 : (pyStrip raw).drop 7 = t7 := by
      rw [ht7, show (7 : Nat) = fence7.length from rfl]
      exact List.drop_left _ _
    rw [if_pos h7, hd7]
    by_cases h3 : fence3.isPrefixOf t7 = true
    case pos =>
      obtain ⟨t3, ht3⟩ := (isPrefixOf_iff_exists fence3 t7).mp h3
      have hd3 : t7.drop 3 = t3 := by
        rw [ht3, show (3 : Nat) = fence3.length from rfl]
        exact List.drop_left _ _
      rw [if_pos h3, hd3]
      by_cases hs : fence3.isSuffixOf t3 = true
      case pos =>
        obtain ⟨u, hu⟩ := (isPrefixOf_iff_exists fence3.reverse t3.reverse).mp hs
        have ht3u : t3 = u.reverse ++ fence3 := by
          have := congrArg List.reverse hu
          simpa [List.reverse_append] using this
        have htk : t3.take (t3.length - 3) = u.reverse := by
          rw [ht3u, show (u.reverse ++ fence3).length - 3 = u.reverse.length by simp [fence3]]
          exact List.take_left _ _
        rw [if_pos hs, htk]
        refine ⟨a0 ++ fence7 ++ fence3, fence3 ++ b0, ?_, ?_, ?_⟩
        · rw [hab, ht7, ht3, ht3u]
          simp [List.append_assoc]
        · intro c hc
          simp only [List.append_assoc, List.mem_append] at hc
          rcases hc with hc | hc | hc
          · exact hbfa0 c hc
          · revert c
            decide
          · revert c
            decide
        · intro c hc
          simp only [List.mem_append] at hc
          rcases hc with hc | hc
          · revert c
            decide
          · exact hbfb0 c hc
      case neg =>
        rw [if_neg hs]
        refine ⟨a0 ++ fence7 ++ fence3, b0, ?_, ?_, hbfb0⟩
        · rw [hab, ht7, ht3]
          simp [List.append_assoc]
        · intro c hc
          simp only [List.append_assoc, List.mem_append] at hc
          rcases hc with hc | hc | hc
          · exact hbfa0 c hc
          · revert c
            decide
          · revert c
            decide
    case neg =>
      rw [if_neg h3]
      by_cases hs : fence3.isSuffixOf t7 = true
      case pos =>
        obtain ⟨u, hu⟩ := (isPrefixOf_iff_exists fence3.reverse t7.reverse).mp hs
        have ht7u : t7 = u.reverse ++ fence3 := by
          have := congrArg List.reverse hu
          simpa [List.reverse_append] using this
        have htk : t7.take (t7.length - 3) = u.reverse := by
          rw [ht7u, show (u.reverse ++ fence3).length - 3 = u.reverse.length by simp [fence3]]
          exact List.take_left _ _
        rw [if_pos hs, htk]
        refine ⟨a0 ++ fence7, fence3 ++ b0, ?_, ?_, ?_⟩
        · rw [hab, ht7, ht7u]
          simp [List.append_assoc]
        · intro c hc
          simp only [List.mem_append] at hc
          rcases hc with hc | hc
          · exact hbfa0 c hc
          · revert c
            decide
        · intro c hc
          simp only [List.mem_append] at hc
          rcases hc with hc | hc
          · revert c
            decide
          · exact hbfb0 c hc
      case neg =>
        rw [if_neg hs]
        refine ⟨a0 ++ fence7, b0, ?_, ?_, hbfb0⟩
        · rw [hab, ht7]
          simp [List.append_assoc]
        · intro c hc
          simp only [List.mem_append] at hc
          rcases hc with hc | hc
          · exact hbfa0 c hc
          · revert c
            decide
  case neg =>
    rw [if_neg h7]
    by_cases h3 : fence3.isPrefixOf (pyStrip raw) = true
    case pos =>
      obtain ⟨t3, ht3⟩ := (isPrefixOf_iff_exists fence3 (pyStrip raw)).mp h3
      have hd3 : (pyStrip raw).drop 3 = t3 := by
        rw [ht3, show (3 : Nat) = fence3.length from rfl]
        exact List.drop_left _ _
      rw [if_pos h3, hd3]
      by_cases hs : fence3.isSuffixOf t3 = true
      case pos =>
        obtain ⟨u, hu⟩ := (isPrefixOf_iff_exists fence3.reverse t3.reverse).mp hs
        have ht3u : t3 = u.reverse ++ fence3 := by
          have := congrArg List.reverse hu
          simpa [List.reverse_append] using this
        have htk : t3.take (t3.length - 3) = u.reverse := by
          rw [ht3u, show (u.reverse ++ fence3).length - 3 = u.reverse.length by simp [fence3]]
          exact List.take_left _ _
        rw [if_pos hs, htk]
        refine ⟨a0 ++ fence3, fence3 ++ b0, ?_, ?_, ?_⟩
        · rw [hab, ht3, ht3u]
          simp [List.append_assoc]
        · intro c hc
          simp only [List.mem_append] at hc
          rcases hc with hc | hc
          · exact hbfa0 c hc
          · revert c
            decide
        · intro c hc
          simp only [List.mem_append] at hc
          rcases hc with hc | hc
          · revert c
            decide
          · exact hbfb0 c hc
      case neg =>
        rw [if_neg hs]
        refine ⟨a0 ++ fence3, b0, ?_, ?_, hbfb0⟩
        · rw [hab, ht3]
          simp [List.append_assoc]
        · intro c hc
          simp only [List.mem_append] at hc
          rcases hc with hc | hc
          · exact hbfa0 c hc
          · revert c
            decide
    case neg =>
      rw [if_neg h3]
      by_cases hs : fence3.isSuffixOf (pyStrip raw) = true
      case pos =>
        obtain ⟨u, hu⟩ := (isPrefixOf_iff_exists fence3.reverse (pyStrip raw).reverse).mp hs
        have hpu : pyStrip raw = u.reverse ++ fence3 := by
          have := congrArg List.reverse hu
          simpa [List.reverse_append] using this
        have htk : (pyStrip raw).take ((pyStrip raw).length - 3) = u.reverse := by
          rw [hpu, show (u.reverse ++ fence3).length - 3 = u.reverse.length by simp [fence3]]
          exact List.take_left _ _
        rw [if_pos hs, htk]
        refine ⟨a0, fence3 ++ b0, ?_, hbfa0, ?_⟩
        · rw [hab, hpu]
          simp [List.append_assoc]
        · intro c hc
          simp only [List.mem_append] at hc
          rcases hc with hc | hc
          · revert c
            decide
          · exact hbfb0 c hc
      case neg =>
        rw [if_neg hs]
        exact ⟨a0, b0, hab, hbfa0, hbfb0⟩

/-- C4: when the primary strip-fence parse fails but the first-`\x7b`-to-
last-`\x7d` span of the response parses as JSON, the extraction returns that
span's object instead of raising. -/
theorem generate_json_brace_extraction (raw sp : Str) (v : JVal)
    (h1 : json_loads (stripFences raw) = none)
    (h2 : braceSpan raw = some sp)
    (h3 : json_loads sp = some v) :
    parseJsonResponse raw = Except.ok v := by
  obtain ⟨a, b, hab, ha, hb⟩ := stripFences_decomp raw
  have hinv : braceSpan (stripFences raw) = braceSpan raw := by
    conv_rhs => rw [hab]
    exact (braceSpan_affix ha hb).symm
  simp only [parseJsonResponse, h1, hinv, h2, h3]

/-- Witness: prose around a JSON object still extracts the object once the
primary parse fails. -/
theorem generate_json_brace_extraction_witness :
    parseJsonResponse (("noise \x7b\"k\": 2\x7d tail".data)) =
      Except.ok (JVal.jobj [(("k".data), JVal.jnum ("2".data))]) :=
  generate_json_brace_extraction (("noise \x7b\"k\": 2\x7d tail".data))
    (("\x7b\"k\": 2\x7d".data)) (JVal.jobj [(("k".data), JVal.jnum ("2".data))])
    rfl rfl rfl

/-- C3 counterexample: on the response `"```abc"` the extraction raises, but
the error message does not contain the (at most 200-character) prefix of the
original raw response — stripping removed the fence first, so the excerpt is
`"abc"`, not a prefix of `"```abc"`. -/
theorem generate_json_error_message_counterexample :
    parseJsonResponse (("```abc".data)) = Except.error (jsonErrorMsg ("abc".data)) ∧
    pyIn ((("```abc".data) : Str).take 200) (jsonErrorMsg ("abc".data)) = false := by
  exact ⟨rfl, rfl⟩

/-- C3 (amended): every `ValueError` raised by the extraction carries the
first at-most-200 characters of the fence-stripped response, which is an
infix — not in general a prefix — of the original raw response. -/
theorem generate_json_error_message (raw m : Str)
    (h : parseJsonResponse raw = Except.error m) :
    m = jsonErrPrefix ++ (stripFences raw).take 200 ∧
    ((stripFences raw).take 200).length ≤ 200 ∧
    ∃ a b, raw = a ++ (stripFences raw).take 200 ++ b := by
  have hm : m = jsonErrorMsg (stripFences raw) := by
    simp only [parseJsonResponse] at h
    split at h
    · exact Except.noConfusion h
    · split at h
      · split at h
        · exact Except.noConfusion h
        · exact (Except.error.inj h).symm
      · exact (Except.error.inj h).symm
  refine ⟨hm, by simp, ?_⟩
  obtain ⟨a, b, hab, -, -⟩ := stripFences_decomp raw
  refine ⟨a, (stripFences raw).drop 200 ++ b, ?_⟩
  conv_lhs => rw [hab]
  simp only [List.append_assoc]
  rw [← List.append_assoc ((stripFences raw).take 200), List.take_append_drop]

/-- Witness: a concrete unparsable response yields the error message built
from the stripped text, an infix of the raw response. -/
theorem generate_json_error_message_witness :
    jsonErrorMsg (stripFences ("xyz".data)) =
      jsonErrPrefix ++ (stripFences ("xyz".data)).take 200 ∧
    ((stripFences ("xyz".data)).take 200).length ≤ 200 ∧
    ∃ a b, ("xyz".data) = a ++ (stripFences ("xyz".data)).take 200 ++ b :=
  generate_json_error_message (("xyz".data)) (jsonErrorMsg (stripFences ("xyz".data))) rfl
